import Mathlib

/-! # Trotter-Suzuki solver: border calculator and buffer reshaper

A shallow embedding of `src/common.cpp` (`calculate_borders`, `memcpy2D`, `merge_line`,
`get_quadrant_sample`, `merge_line_to_buffer`, `get_quadrant_sample_to_buffer`, and the
index arithmetic of the stencil of `expect_values`).

Conventions of the embedding.

* `int` is `Int`: the regime without signed overflow (which is undefined in C++).
* `size_t` is `Nat`: the regime in which `x + width + 1` and `y + height + 1`
  stay below `2 ^ 64`, so that no counter wraps.
* A read-only `const float *` is a function `Nat → α` (the cells seen from the
  pointer); `&p[k]` is `offset p k`.  A written `float *` is the same kind of
  view, and the caller puts the view back into its buffer with `store`.
* The values are only ever copied, so the element type `α` stays abstract.
* `assert` is active: a failed assertion aborts the call (`none`).
* A `while` or `for` loop takes a fuel argument; the fuel handed over by the enclosing
  function is shown to be enough, so `none` never stands for an unfinished loop.
-/

namespace TrotterSuzuki

/-! ## Border calculator -/

/-- The expression `(int)ceil((double)length / (double)dim)` of `calculate_borders`.
Both operands are 32-bit integers, hence exact as doubles, and the correctly rounded
quotient of two such numbers has the same ceiling as the exact quotient; the
exact quotient is taken in `ℚ`. The expression is meaningful for `dim ≠ 0` only. -/
def ceil_div (length dim : Int) : Int :=
  Int.ceil ((length : ℚ) / (dim : ℚ))

/-- The four values `calculate_borders` writes through its output pointers. -/
structure Borders where
  start : Int
  end_ : Int
  inner_start : Int
  inner_end : Int
  deriving DecidableEq, Repr

/-- Embedding of `calculate_borders`, statement by statement. -/
def calculate_borders (coord dim length halo periodic_bound : Int) : Borders :=
  let inner := ceil_div length dim
  let inner_start := coord * inner
  let start :=
    if periodic_bound ≠ 0 then inner_start - halo
    else (if coord = 0 then 0 else inner_start - halo)
  let end0 := inner_start + (inner + halo)
  let end1 :=
    if end0 > length then (if periodic_bound ≠ 0 then length + halo else length)
    else end0
  let inner_end :=
    if periodic_bound ≠ 0 then end1 - halo
    else (if end1 = length then end1 else end1 - halo)
  { start := start, end_ := end1, inner_start := inner_start, inner_end := inner_end }

/-! ## Buffer reshaper -/

section Reshaper

variable {α : Type}

/-- The pointer `&p[k]`: the cells of `p` seen from index `k` on. -/
def offset (p : Nat → α) (k : Nat) : Nat → α :=
  fun i => p (k + i)

/-- The buffer `p` once the cells seen from `&p[k]` hold `q`. -/
def store (p : Nat → α) (k : Nat) (q : Nat → α) : Nat → α :=
  fun i => if k ≤ i then q (i - k) else p i

/-- The value `merge_line` places at position `i` of the run: the global column is
`x + i`, its parity picks the sequence, and the index read is `x / 2 + i / 2`. -/
def merge_line_cell (evens odds : Nat → α) (x i : Nat) : α :=
  if (x + i) % 2 = 0 then evens (x / 2 + i / 2) else odds (x / 2 + i / 2)

/-- The local variables of `merge_line`; `evens_p` and `odds_p` are kept as indices
into `evens` and `odds`. -/
structure LineState (α : Type) where
  dest : Nat → α
  dest_x : Nat
  evens_p : Nat
  odds_p : Nat

/-- The `while` loop of `merge_line` (lines 95-98). -/
def merge_line_loop (evens odds : Nat → α) (x width : Nat) :
    Nat → LineState α → Option (LineState α)
  | 0, s => if s.dest_x < (x + width) - (x + width) % 2 then none else some s
  | fuel + 1, s =>
    if s.dest_x < (x + width) - (x + width) % 2 then
      let s1 : LineState α :=
        { s with dest := Function.update s.dest (s.dest_x - x) (evens s.evens_p),
                 dest_x := s.dest_x + 1, evens_p := s.evens_p + 1 }
      let s2 : LineState α :=
        { s1 with dest := Function.update s1.dest (s1.dest_x - x) (odds s1.odds_p),
                  dest_x := s1.dest_x + 1, odds_p := s1.odds_p + 1 }
      merge_line_loop evens odds x width fuel s2
    else some s

/-- The body of `merge_line` up to its assertion: the state in which
`assert(dest_x == x + width)` is evaluated. -/
def merge_line_run (evens odds : Nat → α) (x width : Nat) (dest : Nat → α) :
    Option (LineState α) :=
  let s0 : LineState α := { dest := dest, dest_x := x, evens_p := x / 2, odds_p := x / 2 }
  let s1 : LineState α :=
    if x % 2 = 1 then
      { s0 with dest := Function.update s0.dest (s0.dest_x - x) (odds s0.odds_p),
                dest_x := s0.dest_x + 1, odds_p := s0.odds_p + 1 }
    else s0
  (merge_line_loop evens odds x width width s1).map fun s2 =>
    if s2.dest_x < x + width then
      { s2 with dest := Function.update s2.dest (s2.dest_x - x) (evens s2.evens_p),
                dest_x := s2.dest_x + 1 }
    else s2

/-- Embedding of `merge_line`: the cells seen from `dest` after the call, or `none`
when the assertion `dest_x == x + width` fails. -/
def merge_line (evens odds : Nat → α) (x width : Nat) (dest : Nat → α) :
    Option (Nat → α) :=
  (merge_line_run evens odds x width dest).bind fun s =>
    if s.dest_x = x + width then some s.dest else none

/-- The call `merge_line(evens, odds, x, width, &dest[k])` seen from the caller: the
whole buffer `dest` after the call. -/
def merge_line_at (evens odds : Nat → α) (x width : Nat) (dest : Nat → α) (k : Nat) :
    Option (Nat → α) :=
  (merge_line evens odds x width (offset dest k)).map (store dest k)

/-- The eight source planes of `get_quadrant_sample`. -/
structure Quadrants (α : Type) where
  r00 : Nat → α
  r01 : Nat → α
  r10 : Nat → α
  r11 : Nat → α
  i00 : Nat → α
  i01 : Nat → α
  i10 : Nat → α
  i11 : Nat → α

/-- The local variables of `get_quadrant_sample` together with the two destination
planes. -/
structure SampleState (α : Type) where
  dest_real : Nat → α
  dest_imag : Nat → α
  dest_y : Nat

/-- The `while` loop of `get_quadrant_sample` (lines 117-124). -/
def get_quadrant_sample_loop (q : Quadrants α) (src_stride dest_stride x y width height : Nat) :
    Nat → SampleState α → Option (SampleState α)
  | 0, s => if s.dest_y < (y + height) - (y + height) % 2 then none else some s
  | fuel + 1, s =>
    if s.dest_y < (y + height) - (y + height) % 2 then
      (merge_line_at (offset q.r00 ((s.dest_y / 2) * src_stride))
          (offset q.r01 ((s.dest_y / 2) * src_stride)) x width
          s.dest_real ((s.dest_y - y) * dest_stride)).bind fun dr1 =>
      (merge_line_at (offset q.i00 ((s.dest_y / 2) * src_stride))
          (offset q.i01 ((s.dest_y / 2) * src_stride)) x width
          s.dest_imag ((s.dest_y - y) * dest_stride)).bind fun di1 =>
      let dest_y1 := s.dest_y + 1
      (merge_line_at (offset q.r10 ((dest_y1 / 2) * src_stride))
          (offset q.r11 ((dest_y1 / 2) * src_stride)) x width
          dr1 ((dest_y1 - y) * dest_stride)).bind fun dr2 =>
      (merge_line_at (offset q.i10 ((dest_y1 / 2) * src_stride))
          (offset q.i11 ((dest_y1 / 2) * src_stride)) x width
          di1 ((dest_y1 - y) * dest_stride)).bind fun di2 =>
      get_quadrant_sample_loop q src_stride dest_stride x y width height fuel
        { dest_real := dr2, dest_imag := di2, dest_y := dest_y1 + 1 }
    else some s

/-- The body of `get_quadrant_sample` up to its assertion: the state in which
`assert(dest_y == y + height)` is evaluated (`none` when a call of `merge_line`
aborts). -/
def get_quadrant_sample_run (q : Quadrants α) (src_stride dest_stride x y width height : Nat)
    (dest_real dest_imag : Nat → α) : Option (SampleState α) :=
  let s0 : SampleState α := { dest_real := dest_real, dest_imag := dest_imag, dest_y := y }
  (if y % 2 = 1 then
      (merge_line_at (offset q.r10 ((y / 2) * src_stride))
          (offset q.r11 ((y / 2) * src_stride)) x width s0.dest_real 0).bind fun dr =>
      (merge_line_at (offset q.i10 ((y / 2) * src_stride))
          (offset q.i11 ((y / 2) * src_stride)) x width s0.dest_imag 0).bind fun di =>
      some ({ dest_real := dr, dest_imag := di, dest_y := s0.dest_y + 1 } : SampleState α)
    else some s0).bind fun s1 =>
  (get_quadrant_sample_loop q src_stride dest_stride x y width height height s1).bind fun s2 =>
  if s2.dest_y < y + height then
    (merge_line_at (offset q.r00 ((s2.dest_y / 2) * src_stride))
        (offset q.r01 ((s2.dest_y / 2) * src_stride)) x width
        s2.dest_real ((s2.dest_y - y) * dest_stride)).bind fun dr =>
    (merge_line_at (offset q.i00 ((s2.dest_y / 2) * src_stride))
        (offset q.i01 ((s2.dest_y / 2) * src_stride)) x width
        s2.dest_imag ((s2.dest_y - y) * dest_stride)).bind fun di =>
    some { s2 with dest_real := dr, dest_imag := di }
  else some s2

/-- The two destination planes after a call. -/
structure Planes (α : Type) where
  dest_real : Nat → α
  dest_imag : Nat → α

/-- Embedding of `get_quadrant_sample`: both destination planes after the call, or
`none` when an assertion fails. -/
def get_quadrant_sample (q : Quadrants α) (src_stride dest_stride x y width height : Nat)
    (dest_real dest_imag : Nat → α) : Option (Planes α) :=
  (get_quadrant_sample_run q src_stride dest_stride x y width height dest_real dest_imag).bind
    fun s =>
      if s.dest_y = y + height then
        some { dest_real := s.dest_real, dest_imag := s.dest_imag }
      else none

/-- The local variables of `merge_line_to_buffer`. -/
structure BufferLineState (α : Type) where
  dest : Nat → α
  dest_x : Nat
  buffer_x : Nat
  evens_p : Nat
  odds_p : Nat

/-- The `while` loop of `merge_line_to_buffer` (lines 143-148). -/
def merge_line_to_buffer_loop (evens odds : Nat → α) (x width : Nat) :
    Nat → BufferLineState α → Option (BufferLineState α)
  | 0, s => if s.dest_x < (x + width) - (x + width) % 2 then none else some s
  | fuel + 1, s =>
    if s.dest_x < (x + width) - (x + width) % 2 then
      let s1 : BufferLineState α :=
        { s with dest := Function.update s.dest s.buffer_x (evens s.evens_p),
                 buffer_x := s.buffer_x + 1, evens_p := s.evens_p + 1 }
      let s2 : BufferLineState α :=
        { s1 with dest := Function.update s1.dest s1.buffer_x (odds s1.odds_p),
                  buffer_x := s1.buffer_x + 1, odds_p := s1.odds_p + 1 }
      merge_line_to_buffer_loop evens odds x width fuel
        { s2 with dest_x := s2.dest_x + 1 + 1 }
    else some s

/-- The body of `merge_line_to_buffer` up to its assertion. -/
def merge_line_to_buffer_run (evens odds : Nat → α) (x width : Nat) (dest : Nat → α) :
    Option (BufferLineState α) :=
  let s0 : BufferLineState α :=
    { dest := dest, dest_x := x, buffer_x := 0, evens_p := x / 2, odds_p := x / 2 }
  let s1 : BufferLineState α :=
    if x % 2 = 1 then
      { s0 with dest := Function.update s0.dest s0.buffer_x (odds s0.odds_p),
                buffer_x := s0.buffer_x + 1, odds_p := s0.odds_p + 1,
                dest_x := s0.dest_x + 1 }
    else s0
  (merge_line_to_buffer_loop evens odds x width width s1).map fun s2 =>
    if s2.dest_x < x + width then
      { s2 with dest := Function.update s2.dest s2.buffer_x (evens s2.evens_p),
                buffer_x := s2.buffer_x + 1, dest_x := s2.dest_x + 1 }
    else s2

/-- Embedding of `merge_line_to_buffer`: the cells seen from `dest` after the call, or
`none` when the assertion `dest_x == x + width` fails. -/
def merge_line_to_buffer (evens odds : Nat → α) (x width : Nat) (dest : Nat → α) :
    Option (Nat → α) :=
  (merge_line_to_buffer_run evens odds x width dest).bind fun s =>
    if s.dest_x = x + width then some s.dest else none

/-- The call `merge_line_to_buffer(evens, odds, x, width, &dest[k])` seen from the
caller. -/
def merge_line_to_buffer_at (evens odds : Nat → α) (x width : Nat) (dest : Nat → α)
    (k : Nat) : Option (Nat → α) :=
  (merge_line_to_buffer evens odds x width (offset dest k)).map (store dest k)

/-- The local variables of `get_quadrant_sample_to_buffer` together with the two
destination planes. -/
structure BufferSampleState (α : Type) where
  dest_real : Nat → α
  dest_imag : Nat → α
  dest_y : Nat
  buffer_y : Nat

/-- The `while` loop of `get_quadrant_sample_to_buffer` (lines 170-179). -/
def get_quadrant_sample_to_buffer_loop (q : Quadrants α)
    (src_stride dest_stride x y width height : Nat) :
    Nat → BufferSampleState α → Option (BufferSampleState α)
  | 0, s => if s.dest_y < (y + height) - (y + height) % 2 then none else some s
  | fuel + 1, s =>
    if s.dest_y < (y + height) - (y + height) % 2 then
      (merge_line_to_buffer_at (offset q.r00 ((s.dest_y / 2) * src_stride))
          (offset q.r01 ((s.dest_y / 2) * src_stride)) x width
          s.dest_real (s.buffer_y * dest_stride)).bind fun dr1 =>
      (merge_line_to_buffer_at (offset q.i00 ((s.dest_y / 2) * src_stride))
          (offset q.i01 ((s.dest_y / 2) * src_stride)) x width
          s.dest_imag (s.buffer_y * dest_stride)).bind fun di1 =>
      let dest_y1 := s.dest_y + 1
      let buffer_y1 := s.buffer_y + 1
      (merge_line_to_buffer_at (offset q.r10 ((dest_y1 / 2) * src_stride))
          (offset q.r11 ((dest_y1 / 2) * src_stride)) x width
          dr1 (buffer_y1 * dest_stride)).bind fun dr2 =>
      (merge_line_to_buffer_at (offset q.i10 ((dest_y1 / 2) * src_stride))
          (offset q.i11 ((dest_y1 / 2) * src_stride)) x width
          di1 (buffer_y1 * dest_stride)).bind fun di2 =>
      get_quadrant_sample_to_buffer_loop q src_stride dest_stride x y width height fuel
        { dest_real := dr2, dest_imag := di2, dest_y := dest_y1 + 1,
          buffer_y := buffer_y1 + 1 }
    else some s

/-- The body of `get_quadrant_sample_to_buffer` up to its assertion. -/
def get_quadrant_sample_to_buffer_run (q : Quadrants α)
    (src_stride dest_stride x y width height : Nat)
    (dest_real dest_imag : Nat → α) : Option (BufferSampleState α) :=
  let s0 : BufferSampleState α :=
    { dest_real := dest_real, dest_imag := dest_imag, dest_y := y, buffer_y := 0 }
  (if y % 2 = 1 then
      (merge_line_to_buffer_at (offset q.r10 ((y / 2) * src_stride))
          (offset q.r11 ((y / 2) * src_stride)) x width s0.dest_real 0).bind fun dr =>
      (merge_line_to_buffer_at (offset q.i10 ((y / 2) * src_stride))
          (offset q.i11 ((y / 2) * src_stride)) x width s0.dest_imag 0).bind fun di =>
      some ({ dest_real := dr, dest_imag := di, dest_y := s0.dest_y + 1,
              buffer_y := s0.buffer_y + 1 } : BufferSampleState α)
    else some s0).bind fun s1 =>
  (get_quadrant_sample_to_buffer_loop q src_stride dest_stride x y width height height
      s1).bind fun s2 =>
  if s2.dest_y < y + height then
    (merge_line_to_buffer_at (offset q.r00 ((s2.dest_y / 2) * src_stride))
        (offset q.r01 ((s2.dest_y / 2) * src_stride)) x width
        s2.dest_real (s2.buffer_y * dest_stride)).bind fun dr =>
    (merge_line_to_buffer_at (offset q.i00 ((s2.dest_y / 2) * src_stride))
        (offset q.i01 ((s2.dest_y / 2) * src_stride)) x width
        s2.dest_imag (s2.buffer_y * dest_stride)).bind fun di =>
    some { s2 with dest_real := dr, dest_imag := di }
  else some s2

/-- Embedding of `get_quadrant_sample_to_buffer`: both destination planes after the
call, or `none` when an assertion fails. -/
def get_quadrant_sample_to_buffer (q : Quadrants α)
    (src_stride dest_stride x y width height : Nat)
    (dest_real dest_imag : Nat → α) : Option (Planes α) :=
  (get_quadrant_sample_to_buffer_run q src_stride dest_stride x y width height
      dest_real dest_imag).bind
    fun s =>
      if s.dest_y = y + height then
        some { dest_real := s.dest_real, dest_imag := s.dest_imag }
      else none

/-- The value `get_quadrant_sample` places at row `j`, column `i` of a plane: the global
row `y + j` picks the pair `p00`/`p01` (even) or `p10`/`p11` (odd), both taken from
the cell `((y + j) / 2) * src_stride` on, and `merge_line` does the rest. -/
def sample_cell (p00 p01 p10 p11 : Nat → α) (src_stride x y j i : Nat) : α :=
  if (y + j) % 2 = 0 then
    merge_line_cell (offset p00 (((y + j) / 2) * src_stride))
      (offset p01 (((y + j) / 2) * src_stride)) x i
  else
    merge_line_cell (offset p10 (((y + j) / 2) * src_stride))
      (offset p11 (((y + j) / 2) * src_stride)) x i

/-- The buffer `d` after the first `width` cells of row `k` (from cell
`k * dest_stride` on) have been overwritten with `G 0 .. G (width - 1)`: the effect of
one call `merge_line(.., &dest[k * dest_stride])`. -/
def write_row (G : Nat → α) (ds width k : Nat) (d : Nat → α) : Nat → α :=
  fun c => if k * ds ≤ c ∧ c < k * ds + width then G (c - k * ds) else d c

/-- The buffer `d` after the rows `k, k + 1, .., k + n - 1` have been written one after
the other, row `j` with the values `F j 0 .. F j (width - 1)`. -/
def write_rows (F : Nat → Nat → α) (ds width : Nat) : Nat → Nat → (Nat → α) → (Nat → α)
  | _, 0, d => d
  | k, n + 1, d => write_rows F ds width (k + 1) n (write_row (F k) ds width k d)

/-- A cell a destination cell can be copied from: cell `c` of the destination plane
itself (`Sum.inl c`), or cell `k` of one of the four source planes of the same kind
(`Sum.inr (p, k)`), the planes being numbered 0 (`00`), 1 (`01`), 2 (`10`), 3 (`11`). -/
abbrev SourceCell := Nat ⊕ (Fin 4 × Nat)

/-- The value found in a source cell, given the four source planes and the initial
destination plane. -/
def read_source (p00 p01 p10 p11 d : Nat → α) : SourceCell → α
  | Sum.inl c => d c
  | Sum.inr (p, k) =>
    if p = 0 then p00 k else if p = 1 then p01 k else if p = 2 then p10 k else p11 k

/-- Forgets `buffer_x`: the in-place state a packed state corresponds to. -/
def BufferLineState.toLine (s : BufferLineState α) : LineState α :=
  { dest := s.dest, dest_x := s.dest_x, evens_p := s.evens_p, odds_p := s.odds_p }

/-- Forgets `buffer_y`: the in-place state a packed state corresponds to. -/
def BufferSampleState.toSample (s : BufferSampleState α) : SampleState α :=
  { dest_real := s.dest_real, dest_imag := s.dest_imag, dest_y := s.dest_y }

end Reshaper

/-! ## Batch analysis stencil -/

/-- The values taken by the loop variables `j` and `k` of the stencil loops of
`expect_values` (lines 243-244): `for (int j = 1; j < DIM - 1; j++)`. -/
def stencil_range (DIM : Int) : List Int :=
  (List.range (DIM - 1 - 1).toNat).map fun (i : Nat) => Int.ofNat i + 1

/-- The indices of `psi` read in one pass of the stencil body (lines 245-248), in the
order in which they first appear. -/
def stencil_psi_reads (dim j k : Int) : List Int :=
  [k + j * dim, k + 1 + j * dim, k - 1 + j * dim, k + (j + 1) * dim, k + (j - 1) * dim]

/-- The index of `hamilt_pot` read in one pass of the stencil body (line 245). -/
def stencil_pot_read (dim j k : Int) : Int :=
  j * dim + k

/-! ## Two-dimensional copy -/

/-- The inner `for` loop of `memcpy2D` (lines 80-82) for the row `i`, started at column
`j`; the bytes are only copied, so their type stays abstract, and source and
destination are separate buffers. -/
def memcpy2D_inner {α : Type} (s : Nat → α) (dstride sstride width i : Nat) :
    Nat → Nat → (Nat → α) → Option (Nat → α)
  | 0, j, d => if j < width then none else some d
  | fuel + 1, j, d =>
    if j < width then
      memcpy2D_inner s dstride sstride width i fuel (j + 1)
        (Function.update d (i * dstride + j) (s (i * sstride + j)))
    else some d

/-- The outer `for` loop of `memcpy2D` (lines 79-83), started at row `i`. -/
def memcpy2D_outer {α : Type} (s : Nat → α) (dstride sstride width height : Nat) :
    Nat → Nat → (Nat → α) → Option (Nat → α)
  | 0, i, d => if i < height then none else some d
  | fuel + 1, i, d =>
    if i < height then
      (memcpy2D_inner s dstride sstride width i width 0 d).bind fun d1 =>
        memcpy2D_outer s dstride sstride width height fuel (i + 1) d1
    else some d

/-- Embedding of `memcpy2D`: the destination buffer after the call. -/
def memcpy2D {α : Type} (dst : Nat → α) (dstride : Nat) (src : Nat → α)
    (sstride width height : Nat) : Option (Nat → α) :=
  memcpy2D_outer src dstride sstride width height height 0 dst

/-! ### Test data -/

/-- A sequence of evens whose cell `i` holds `10 + i`. -/
def test_evens : Nat → Nat := fun i => 10 + i

/-- A sequence of odds whose cell `i` holds `20 + i`. -/
def test_odds : Nat → Nat := fun i => 20 + i

/-- A destination buffer of zeros. -/
def test_dest : Nat → Nat := fun _ => 0

/-- Eight planes with distinguishable cells: cell `i` of `r00` holds `100 + i`, of `r01`
`200 + i`, of `r10` `300 + i`, of `r11` `400 + i`, and `500 + i` to `800 + i` for the
imaginary planes. -/
def test_quadrants : Quadrants Nat :=
  { r00 := fun i => 100 + i, r01 := fun i => 200 + i,
    r10 := fun i => 300 + i, r11 := fun i => 400 + i,
    i00 := fun i => 500 + i, i01 := fun i => 600 + i,
    i10 := fun i => 700 + i, i11 := fun i => 800 + i }

/-- A source buffer whose cell `i` holds `50 + i`. -/
def test_src : Nat → Nat := fun i => 50 + i

/-! ### Integer ceiling -/

theorem ceil_div_mul_ge (length dim : Int) (hd : 1 ≤ dim) :
    length ≤ ceil_div length dim * dim := by
  have hq : (0 : ℚ) < (dim : ℚ) := by exact_mod_cast hd
  have h := Int.le_ceil ((length : ℚ) / (dim : ℚ))
  have h2 : (length : ℚ) ≤ (ceil_div length dim : ℚ) * (dim : ℚ) := by
    rw [div_le_iff₀ hq] at h
    exact h
  exact_mod_cast h2

theorem ceil_div_pred_mul_lt (length dim : Int) (hd : 1 ≤ dim) :
    (ceil_div length dim - 1) * dim < length := by
  have hq : (0 : ℚ) < (dim : ℚ) := by exact_mod_cast hd
  have h := Int.ceil_lt_add_one ((length : ℚ) / (dim : ℚ))
  have h1 : ((ceil_div length dim : ℚ) - 1) < (length : ℚ) / (dim : ℚ) := by
    unfold ceil_div
    linarith
  have h2 : ((ceil_div length dim : ℚ) - 1) * (dim : ℚ) < (length : ℚ) := by
    rw [lt_div_iff₀ hq] at h1
    exact h1
  exact_mod_cast h2

/-- The ceiling is the integer quotient rounded up. -/
theorem ceil_div_eq (length dim : Int) (hd : 1 ≤ dim) :
    ceil_div length dim = (length + dim - 1) / dim := by
  have h1 := ceil_div_mul_ge length dim hd
  have h2 := ceil_div_pred_mul_lt length dim hd
  have hpos : 0 < dim := by omega
  have h3 := Int.ediv_mul_le (length + dim - 1) (ne_of_gt hpos)
  have h4 := Int.lt_ediv_add_one_mul_self (length + dim - 1) hpos
  rcases lt_trichotomy (ceil_div length dim) ((length + dim - 1) / dim) with h | h | h
  · nlinarith
  · exact h
  · nlinarith

theorem ceil_div_pos (length dim : Int) (hl : 1 ≤ length) (hd : 1 ≤ dim) :
    1 ≤ ceil_div length dim := by
  have h1 := ceil_div_mul_ge length dim hd
  by_contra hc
  have hc2 : ceil_div length dim ≤ 0 := by omega
  nlinarith

/-! ### Claims about `calculate_borders` -/

/-- C3: for `length ≥ 0` and `dim ≥ 1`, `calculate_borders` sets
`inner_start = coord * inner` where `inner` is the exact integer ceiling of
`length / dim` (the least integer with `length ≤ inner * dim`, which is also
`(length + dim - 1) / dim`), sets `start = inner_start - halo` on a periodic axis,
and otherwise `start = 0` for `coord = 0` and `start = inner_start - halo` for
`coord ≠ 0`. -/
theorem calculate_borders_start_spec (coord dim length halo periodic_bound : Int)
    (hl : 0 ≤ length) (hd : 1 ≤ dim) :
    ∃ inner : Int,
      (inner - 1) * dim < length ∧ length ≤ inner * dim ∧ 0 ≤ inner ∧
      inner = (length + dim - 1) / dim ∧
      (calculate_borders coord dim length halo periodic_bound).inner_start = coord * inner ∧
      (periodic_bound ≠ 0 →
        (calculate_borders coord dim length halo periodic_bound).start
          = coord * inner - halo) ∧
      (periodic_bound = 0 → coord = 0 →
        (calculate_borders coord dim length halo periodic_bound).start = 0) ∧
      (periodic_bound = 0 → coord ≠ 0 →
        (calculate_borders coord dim length halo periodic_bound).start
          = coord * inner - halo) := by
  refine ⟨ceil_div length dim, ceil_div_pred_mul_lt length dim hd,
    ceil_div_mul_ge length dim hd, ?_, ceil_div_eq length dim hd, rfl, ?_, ?_, ?_⟩
  · have h2 := ceil_div_mul_ge length dim hd
    by_contra hc
    have hc2 : ceil_div length dim ≤ -1 := by omega
    nlinarith
  · intro hp
    simp [calculate_borders, hp]
  · intro hp hc
    simp [calculate_borders, hp, hc]
  · intro hp hc
    simp [calculate_borders, hp, hc]

theorem calculate_borders_start_spec_witness :
    ∃ inner : Int,
      (inner - 1) * 4 < 10 ∧ 10 ≤ inner * 4 ∧ 0 ≤ inner ∧
      inner = (10 + 4 - 1) / 4 ∧
      (calculate_borders 2 4 10 1 0).inner_start = 2 * inner ∧
      ((0 : Int) ≠ 0 → (calculate_borders 2 4 10 1 0).start = 2 * inner - 1) ∧
      ((0 : Int) = 0 → (2 : Int) = 0 → (calculate_borders 2 4 10 1 0).start = 0) ∧
      ((0 : Int) = 0 → (2 : Int) ≠ 0 → (calculate_borders 2 4 10 1 0).start = 2 * inner - 1) :=
  calculate_borders_start_spec 2 4 10 1 0 (by decide) (by decide)

/-- C4: for every input, with `inner = ceil(length / dim)` and
`e0 = inner_start + inner + halo`: `end` is `e0` when `e0 ≤ length`, and otherwise
`length + halo` on a periodic axis and `length` on a non-periodic one; `inner_end`
is `end - halo` on a periodic axis, and on a non-periodic axis it is `end` when
`end = length` and `end - halo` otherwise. -/
theorem calculate_borders_end_spec (coord dim length halo periodic_bound : Int) :
    (calculate_borders coord dim length halo periodic_bound).end_ =
      (if (calculate_borders coord dim length halo periodic_bound).inner_start
            + ceil_div length dim + halo ≤ length
        then (calculate_borders coord dim length halo periodic_bound).inner_start
            + ceil_div length dim + halo
        else if periodic_bound ≠ 0 then length + halo else length) ∧
    (calculate_borders coord dim length halo periodic_bound).inner_end =
      (if periodic_bound ≠ 0
        then (calculate_borders coord dim length halo periodic_bound).end_ - halo
        else if (calculate_borders coord dim length halo periodic_bound).end_ = length
          then (calculate_borders coord dim length halo periodic_bound).end_
          else (calculate_borders coord dim length halo periodic_bound).end_ - halo) := by
  constructor
  · simp only [calculate_borders]
    split_ifs <;> omega
  · simp only [calculate_borders]

/-- C5 (counterexample): on a non-periodic axis of length 10 split over 4 ranks with
halo 2, rank 2 gets `inner_end = 10` while rank 3 gets `inner_start = 9`: the inner
ranges of the adjacent ranks 2 and 3 overlap, so adjacency does not hold for every
`length ≥ 1`, `dim ≥ 2`, `halo ≥ 0`. -/
theorem adjacent_inner_ranges_counterexample :
    (calculate_borders 2 4 10 2 0).inner_end = 10 ∧
    (calculate_borders 3 4 10 2 0).inner_start = 9 ∧
    ¬ (∀ length dim halo r : Int, 1 ≤ length → 2 ≤ dim → 0 ≤ halo → 0 ≤ r → r + 1 < dim →
        (calculate_borders r dim length halo 0).inner_end
          = (calculate_borders (r + 1) dim length halo 0).inner_start) := by
  have e1 : (calculate_borders 2 4 10 2 0).inner_end = 10 := by
    simp [calculate_borders, ceil_div_eq]
  have e2 : (calculate_borders 3 4 10 2 0).inner_start = 9 := by
    simp [calculate_borders, ceil_div_eq]
  refine ⟨e1, e2, ?_⟩
  intro h
  have h3 := h 10 4 2 2 (by decide) (by decide) (by decide) (by decide) (by decide)
  have e2' : (calculate_borders (2 + 1) 4 10 2 0).inner_start = 9 := e2
  rw [e1, e2'] at h3
  exact absurd h3 (by decide)

/-- C5 (amended): on a non-periodic axis, for `length ≥ 1`, `dim ≥ 2`, `halo ≥ 0` and
a rank `r` with `0 ≤ r` and `r + 1 < dim`, the `inner_end` of rank `r` equals the
`inner_start` of rank `r + 1` exactly when the halo-extended block end
`(r + 1) * inner + halo` stays strictly below `length`, or the block ends exactly at
`length` (`(r + 1) * inner = length`), where `inner = ceil(length / dim)`. -/
theorem adjacent_inner_ranges_iff (length dim halo r : Int)
    (_hl : 1 ≤ length) (_hd : 2 ≤ dim) (_hh : 0 ≤ halo) (_hr : 0 ≤ r) (_hr1 : r + 1 < dim) :
    (calculate_borders r dim length halo 0).inner_end
        = (calculate_borders (r + 1) dim length halo 0).inner_start
      ↔ ((r + 1) * ceil_div length dim + halo < length
          ∨ (r + 1) * ceil_div length dim = length) := by
  have hm : (r + 1) * ceil_div length dim = r * ceil_div length dim + ceil_div length dim := by
    ring
  simp only [calculate_borders, hm]
  generalize r * ceil_div length dim = s
  generalize ceil_div length dim = c
  simp only [ne_eq, not_true_eq_false, if_false]
  split_ifs <;> constructor <;> intro h <;> omega

theorem adjacent_inner_ranges_iff_witness :
    ((calculate_borders 1 4 10 2 0).inner_end
        = (calculate_borders (1 + 1) 4 10 2 0).inner_start
      ↔ ((1 + 1) * ceil_div 10 4 + 2 < 10 ∨ (1 + 1) * ceil_div 10 4 = 10)) ∧
    (calculate_borders 1 4 10 2 0).inner_end = 6 :=
  ⟨adjacent_inner_ranges_iff 10 4 2 1 (by decide) (by decide) (by decide) (by decide)
    (by decide), by simp [calculate_borders, ceil_div_eq]⟩

/-- C6 (counterexample): on a non-periodic axis of length 5 split over 4 ranks with
halo 0, rank 3 gets `inner_start = 6` and `inner_end = 5`, an inverted inner range. -/
theorem inner_range_ordered_counterexample :
    (calculate_borders 3 4 5 0 0).inner_start = 6 ∧
    (calculate_borders 3 4 5 0 0).inner_end = 5 ∧
    ¬ (∀ length dim halo r : Int, 1 ≤ length → 1 ≤ dim → 0 ≤ halo → 0 ≤ r → r < dim →
        (calculate_borders r dim length halo 0).inner_start
          ≤ (calculate_borders r dim length halo 0).inner_end) := by
  have e1 : (calculate_borders 3 4 5 0 0).inner_start = 6 := by
    simp [calculate_borders, ceil_div_eq]
  have e2 : (calculate_borders 3 4 5 0 0).inner_end = 5 := by
    simp [calculate_borders, ceil_div_eq]
  refine ⟨e1, e2, ?_⟩
  intro h
  have h3 := h 5 4 0 3 (by decide) (by decide) (by decide) (by decide) (by decide)
  rw [e1, e2] at h3
  exact absurd h3 (by decide)

/-- C6 (amended): on a non-periodic axis, for `length ≥ 1`, `dim ≥ 1`, `halo ≥ 0` and
a rank `r` with `0 ≤ r < dim`, `calculate_borders` yields `inner_start ≤ inner_end`
exactly when the block of the rank starts inside the axis,
`r * ceil(length / dim) ≤ length`. -/
theorem inner_range_ordered_iff (length dim halo r : Int)
    (hl : 1 ≤ length) (hd : 1 ≤ dim) (hh : 0 ≤ halo) (_hr : 0 ≤ r) (_hr1 : r < dim) :
    (calculate_borders r dim length halo 0).inner_start
        ≤ (calculate_borders r dim length halo 0).inner_end
      ↔ r * ceil_div length dim ≤ length := by
  have hc := ceil_div_pos length dim hl hd
  simp only [calculate_borders]
  generalize r * ceil_div length dim = s
  generalize ceil_div length dim = c at hc
  simp only [ne_eq, not_true_eq_false, if_false]
  split_ifs <;> constructor <;> intro h <;> omega

theorem inner_range_ordered_iff_witness :
    ((calculate_borders 2 4 5 0 0).inner_start ≤ (calculate_borders 2 4 5 0 0).inner_end
      ↔ 2 * ceil_div 5 4 ≤ 5) ∧
    (calculate_borders 2 4 5 0 0).inner_start = 4 ∧
    (calculate_borders 2 4 5 0 0).inner_end = 5 :=
  ⟨inner_range_ordered_iff 5 4 0 2 (by decide) (by decide) (by decide) (by decide)
    (by decide), by simp [calculate_borders, ceil_div_eq],
    by simp [calculate_borders, ceil_div_eq]⟩

/-- C7: for `length ≥ 1`, `dim ≥ 1`, `halo ≥ 0`, either periodicity, and every global
index `p` with `0 ≤ p < length`, some rank `r` with `0 ≤ r < dim` has
`inner_start ≤ p < inner_end`: the inner ranges leave no gap. -/
theorem inner_ranges_cover (length dim halo periodic_bound p : Int)
    (hl : 1 ≤ length) (hd : 1 ≤ dim) (_hh : 0 ≤ halo) (hp0 : 0 ≤ p) (hp : p < length) :
    ∃ r : Int, 0 ≤ r ∧ r < dim ∧
      (calculate_borders r dim length halo periodic_bound).inner_start ≤ p ∧
      p < (calculate_borders r dim length halo periodic_bound).inner_end := by
  have hc := ceil_div_pos length dim hl hd
  have hcd := ceil_div_mul_ge length dim hd
  have hcpos : 0 < ceil_div length dim := by omega
  have h1 : p / ceil_div length dim * ceil_div length dim ≤ p :=
    Int.ediv_mul_le p (ne_of_gt hcpos)
  have h2 : p < (p / ceil_div length dim + 1) * ceil_div length dim :=
    Int.lt_ediv_add_one_mul_self p hcpos
  have h0 : 0 ≤ p / ceil_div length dim := Int.ediv_nonneg hp0 (le_of_lt hcpos)
  have hlt : p / ceil_div length dim < dim := by
    by_contra hge
    have hge2 : dim ≤ p / ceil_div length dim := by omega
    nlinarith
  refine ⟨p / ceil_div length dim, h0, hlt, ?_, ?_⟩
  · simpa [calculate_borders] using h1
  · have h3 : (p / ceil_div length dim + 1) * ceil_div length dim
        = p / ceil_div length dim * ceil_div length dim + ceil_div length dim := by ring
    rw [h3] at h2
    simp only [calculate_borders]
    generalize p / ceil_div length dim * ceil_div length dim = s at h1 h2
    generalize ceil_div length dim = c at hc h2
    split_ifs <;> omega

theorem inner_ranges_cover_witness :
    ∃ r : Int, 0 ≤ r ∧ r < 4 ∧
      (calculate_borders r 4 10 2 0).inner_start ≤ 7 ∧
      7 < (calculate_borders r 4 10 2 0).inner_end :=
  inner_ranges_cover 10 4 2 0 7 (by decide) (by decide) (by decide) (by decide) (by decide)

/-- C8: on a periodic axis, for every rank, every `length`, `dim ≥ 1` and `halo ≥ 0`,
the halo-extended range reaches exactly `halo` cells beyond the inner range on both
sides: `start = inner_start - halo` and `end = inner_end + halo`; for rank 0 this
gives `start = -halo`, and for the last rank `end = length + halo`. -/
theorem periodic_halo_extent (coord dim length halo periodic_bound : Int)
    (hd : 1 ≤ dim) (hh : 0 ≤ halo) (hp : periodic_bound ≠ 0) :
    (calculate_borders coord dim length halo periodic_bound).start
      = (calculate_borders coord dim length halo periodic_bound).inner_start - halo ∧
    (calculate_borders coord dim length halo periodic_bound).end_
      = (calculate_borders coord dim length halo periodic_bound).inner_end + halo ∧
    (coord = 0 → (calculate_borders coord dim length halo periodic_bound).start = -halo) ∧
    (coord = dim - 1 →
      (calculate_borders coord dim length halo periodic_bound).end_ = length + halo) := by
  have hcd := ceil_div_mul_ge length dim hd
  refine ⟨?_, ?_, ?_, ?_⟩
  · simp [calculate_borders, hp]
  · simp [calculate_borders, hp]
  · intro h0
    simp [calculate_borders, hp, h0]
  · intro hlast
    have hm : (dim - 1) * ceil_div length dim
        = ceil_div length dim * dim - ceil_div length dim := by ring
    simp only [calculate_borders, hlast, hm]
    generalize ceil_div length dim * dim = s at hcd
    generalize ceil_div length dim = c
    split_ifs <;> omega

theorem periodic_halo_extent_witness :
    (calculate_borders 3 4 10 2 1).start = (calculate_borders 3 4 10 2 1).inner_start - 2 ∧
    (calculate_borders 3 4 10 2 1).end_ = (calculate_borders 3 4 10 2 1).inner_end + 2 ∧
    ((3 : Int) = 0 → (calculate_borders 3 4 10 2 1).start = -2) ∧
    ((3 : Int) = 4 - 1 → (calculate_borders 3 4 10 2 1).end_ = 10 + 2) :=
  periodic_halo_extent 3 4 10 2 1 (by decide) (by decide) (by decide)


/-- C13: for the last rank of an axis (`coord = dim - 1`), with `length ≥ 1`, `dim ≥ 1`,
`halo ≥ 0` and either periodicity, `calculate_borders` yields `inner_end = length`; the
inner size of that rank is `length - (dim - 1) * ceil(length / dim)`, which is at most
`ceil(length / dim)` and strictly smaller whenever `dim` does not divide `length`. -/
theorem last_rank_inner_size (coord dim length halo periodic_bound : Int)
    (_hl : 1 ≤ length) (hd : 1 ≤ dim) (hh : 0 ≤ halo) (hlast : coord = dim - 1) :
    (calculate_borders coord dim length halo periodic_bound).inner_end = length ∧
    (calculate_borders coord dim length halo periodic_bound).inner_end
        - (calculate_borders coord dim length halo periodic_bound).inner_start
      = length - (dim - 1) * ceil_div length dim ∧
    length - (dim - 1) * ceil_div length dim ≤ ceil_div length dim ∧
    (¬ dim ∣ length → length - (dim - 1) * ceil_div length dim < ceil_div length dim) := by
  have hcd := ceil_div_mul_ge length dim hd
  have hm : (dim - 1) * ceil_div length dim
      = ceil_div length dim * dim - ceil_div length dim := by ring
  have hend : (calculate_borders coord dim length halo periodic_bound).inner_end = length := by
    simp only [calculate_borders, hlast, hm]
    generalize ceil_div length dim * dim = s at hcd
    generalize ceil_div length dim = c
    split_ifs <;> omega
  refine ⟨hend, ?_, ?_, ?_⟩
  · rw [hend]
    simp only [calculate_borders, hlast]
  · rw [hm]
    omega
  · intro hnd
    have hne : ceil_div length dim * dim ≠ length := by
      intro he
      exact hnd (Dvd.intro _ ((mul_comm _ _).trans he))
    rw [hm]
    omega

theorem last_rank_inner_size_witness :
    (calculate_borders 3 4 10 2 0).inner_end = 10 ∧
    (calculate_borders 3 4 10 2 0).inner_end - (calculate_borders 3 4 10 2 0).inner_start
      = 10 - (4 - 1) * ceil_div 10 4 ∧
    10 - (4 - 1) * ceil_div 10 4 ≤ ceil_div 10 4 ∧
    (¬ (4 : Int) ∣ 10 → 10 - (4 - 1) * ceil_div 10 4 < ceil_div 10 4) :=
  last_rank_inner_size 3 4 10 2 0 (by decide) (by decide) (by decide) (by decide)

/-- C14: with `halo = 0`, for either periodicity, every `coord ≥ 0`, `length ≥ 0` and
`dim ≥ 1`, `calculate_borders` gives the plain block partition:
`start = inner_start = coord * inner` and
`end = inner_end = min ((coord + 1) * inner) length`, where
`inner = ceil(length / dim)`. -/
theorem zero_halo_block_partition (coord dim length periodic_bound : Int)
    (_hc : 0 ≤ coord) (_hl : 0 ≤ length) (_hd : 1 ≤ dim) :
    (calculate_borders coord dim length 0 periodic_bound).start
      = coord * ceil_div length dim ∧
    (calculate_borders coord dim length 0 periodic_bound).inner_start
      = coord * ceil_div length dim ∧
    (calculate_borders coord dim length 0 periodic_bound).end_
      = min ((coord + 1) * ceil_div length dim) length ∧
    (calculate_borders coord dim length 0 periodic_bound).inner_end
      = min ((coord + 1) * ceil_div length dim) length := by
  have hm : (coord + 1) * ceil_div length dim
      = coord * ceil_div length dim + ceil_div length dim := by ring
  refine ⟨?_, rfl, ?_, ?_⟩
  · simp only [calculate_borders]
    split_ifs with h1 h2
    · omega
    · rw [h2]; simp
    · omega
  · simp only [calculate_borders, hm]
    generalize coord * ceil_div length dim = s
    generalize ceil_div length dim = c
    split_ifs <;> omega
  · simp only [calculate_borders, hm]
    generalize coord * ceil_div length dim = s
    generalize ceil_div length dim = c
    split_ifs <;> omega

theorem zero_halo_block_partition_witness :
    (calculate_borders 3 4 10 0 1).start = 3 * ceil_div 10 4 ∧
    (calculate_borders 3 4 10 0 1).inner_start = 3 * ceil_div 10 4 ∧
    (calculate_borders 3 4 10 0 1).end_ = min ((3 + 1) * ceil_div 10 4) 10 ∧
    (calculate_borders 3 4 10 0 1).inner_end = min ((3 + 1) * ceil_div 10 4) 10 :=
  zero_halo_block_partition 3 4 10 1 (by decide) (by decide) (by decide)

/-- C19: on a non-periodic axis, for `length ≥ 1`, `dim ≥ 1`, a halo with
`0 ≤ halo ≤ inner` and a `coord ≥ 0` with `coord * inner ≤ length`, where
`inner = ceil(length / dim)`, the results of `calculate_borders` are ordered:
`0 ≤ start ≤ inner_start ≤ inner_end ≤ end ≤ length`. -/
theorem nonperiodic_range_order (coord dim length halo : Int)
    (hl : 1 ≤ length) (hd : 1 ≤ dim) (hh0 : 0 ≤ halo) (hh : halo ≤ ceil_div length dim)
    (hc : 0 ≤ coord) (hcl : coord * ceil_div length dim ≤ length) :
    0 ≤ (calculate_borders coord dim length halo 0).start ∧
    (calculate_borders coord dim length halo 0).start
      ≤ (calculate_borders coord dim length halo 0).inner_start ∧
    (calculate_borders coord dim length halo 0).inner_start
      ≤ (calculate_borders coord dim length halo 0).inner_end ∧
    (calculate_borders coord dim length halo 0).inner_end
      ≤ (calculate_borders coord dim length halo 0).end_ ∧
    (calculate_borders coord dim length halo 0).end_ ≤ length := by
  have hpos := ceil_div_pos length dim hl hd
  have hge : coord ≠ 0 → ceil_div length dim ≤ coord * ceil_div length dim := by
    intro hne
    have h1 : 1 ≤ coord := by omega
    nlinarith
  have hs : 0 ≤ coord * ceil_div length dim := mul_nonneg hc (by omega)
  simp only [calculate_borders]
  generalize coord * ceil_div length dim = s at hcl hge hs
  generalize ceil_div length dim = c at hh hpos hge
  simp only [ne_eq, not_true_eq_false, if_false]
  refine ⟨?_, ?_, ?_, ?_, ?_⟩
  · split_ifs with h0
    · omega
    · have := hge h0; omega
  · split_ifs <;> omega
  · split_ifs <;> omega
  · split_ifs <;> omega
  · split_ifs <;> omega

theorem nonperiodic_range_order_witness :
    0 ≤ (calculate_borders 2 4 10 2 0).start ∧
    (calculate_borders 2 4 10 2 0).start ≤ (calculate_borders 2 4 10 2 0).inner_start ∧
    (calculate_borders 2 4 10 2 0).inner_start ≤ (calculate_borders 2 4 10 2 0).inner_end ∧
    (calculate_borders 2 4 10 2 0).inner_end ≤ (calculate_borders 2 4 10 2 0).end_ ∧
    (calculate_borders 2 4 10 2 0).end_ ≤ 10 :=
  nonperiodic_range_order 2 4 10 2 (by decide) (by decide) (by decide)
    (by rw [ceil_div_eq 10 4 (by decide)]; decide) (by decide)
    (by rw [ceil_div_eq 10 4 (by decide)]; decide)

/-- C20: for either periodicity, every `length`, `dim ≥ 1`, `halo ≥ 0` and `coord ≥ 0`,
if `(coord + 1) * inner + halo < length` with `inner = ceil(length / dim)`, then
`calculate_borders` for `coord` yields `inner_end = (coord + 1) * inner`, which is the
`inner_start` it yields for `coord + 1`, and `end = inner_end + halo`. -/
theorem adjacency_below_length (coord dim length halo periodic_bound : Int)
    (_hd : 1 ≤ dim) (_hh : 0 ≤ halo) (_hc : 0 ≤ coord)
    (h : (coord + 1) * ceil_div length dim + halo < length) :
    (calculate_borders coord dim length halo periodic_bound).inner_end
      = (coord + 1) * ceil_div length dim ∧
    (calculate_borders (coord + 1) dim length halo periodic_bound).inner_start
      = (coord + 1) * ceil_div length dim ∧
    (calculate_borders coord dim length halo periodic_bound).end_
      = (calculate_borders coord dim length halo periodic_bound).inner_end + halo := by
  have hm : (coord + 1) * ceil_div length dim
      = coord * ceil_div length dim + ceil_div length dim := by ring
  rw [hm] at h
  refine ⟨?_, rfl, ?_⟩
  · simp only [calculate_borders, hm]
    generalize coord * ceil_div length dim = s at h
    generalize ceil_div length dim = c at h
    split_ifs <;> omega
  · simp only [calculate_borders]
    generalize coord * ceil_div length dim = s at h
    generalize ceil_div length dim = c at h
    split_ifs <;> omega

theorem adjacency_below_length_witness :
    (calculate_borders 1 4 10 2 0).inner_end = (1 + 1) * ceil_div 10 4 ∧
    (calculate_borders (1 + 1) 4 10 2 0).inner_start = (1 + 1) * ceil_div 10 4 ∧
    (calculate_borders 1 4 10 2 0).end_ = (calculate_borders 1 4 10 2 0).inner_end + 2 :=
  adjacency_below_length 1 4 10 2 0 (by decide) (by decide) (by decide)
    (by rw [ceil_div_eq 10 4 (by decide)]; decide)

/-! ### The stencil of the batch analysis -/

theorem mem_stencil_range (DIM j : Int) :
    j ∈ stencil_range DIM ↔ 1 ≤ j ∧ j ≤ DIM - 2 := by
  simp only [stencil_range, List.mem_map, List.mem_range]
  constructor
  · rintro ⟨i, hi, rfl⟩
    simp only [Int.ofNat_eq_coe]
    omega
  · rintro ⟨h1, h2⟩
    refine ⟨(j - 1).toNat, by omega, ?_⟩
    simp only [Int.ofNat_eq_coe]
    omega

/-- C18: for every `dim ≥ 1` and every `j`, `k` with `1 ≤ j ≤ dim - 2` and
`1 ≤ k ≤ dim - 2` (the values the stencil loops of `expect_values` run through), every
index read in `psi`, namely `k + j * dim`, `k + 1 + j * dim`, `k - 1 + j * dim`,
`k + (j + 1) * dim` and `k + (j - 1) * dim`, and the index read in `hamilt_pot`, lies in
`[0, dim * dim)`. -/
theorem stencil_reads_in_bounds (dim j k : Int) (_hd : 1 ≤ dim)
    (hj1 : 1 ≤ j) (hj2 : j ≤ dim - 2) (hk1 : 1 ≤ k) (hk2 : k ≤ dim - 2) :
    j ∈ stencil_range dim ∧ k ∈ stencil_range dim ∧
    stencil_psi_reads dim j k
      = [k + j * dim, k + 1 + j * dim, k - 1 + j * dim, k + (j + 1) * dim,
          k + (j - 1) * dim] ∧
    (∀ idx ∈ stencil_psi_reads dim j k, 0 ≤ idx ∧ idx < dim * dim) ∧
    0 ≤ stencil_pot_read dim j k ∧ stencil_pot_read dim j k < dim * dim := by
  have hjd : 0 ≤ j * dim := mul_nonneg (by omega) (by omega)
  have hjd1 : 0 ≤ (j - 1) * dim := mul_nonneg (by omega) (by omega)
  have hup : (j + 1) * dim ≤ (dim - 1) * dim :=
    mul_le_mul_of_nonneg_right (by omega) (by omega)
  have e1 : (j + 1) * dim = j * dim + dim := by ring
  have e2 : (j - 1) * dim = j * dim - dim := by ring
  have e3 : (dim - 1) * dim = dim * dim - dim := by ring
  rw [e1, e3] at hup
  rw [e2] at hjd1
  refine ⟨(mem_stencil_range dim j).mpr ⟨hj1, hj2⟩, (mem_stencil_range dim k).mpr ⟨hk1, hk2⟩,
    rfl, ?_, ?_, ?_⟩
  · intro idx hidx
    simp only [stencil_psi_reads, List.mem_cons, List.mem_singleton, List.not_mem_nil,
      or_false, e1, e2] at hidx
    generalize j * dim = a at hidx hjd hjd1 hup
    generalize dim * dim = b at hup
    rcases hidx with h | h | h | h | h <;> subst h <;> constructor <;> omega
  · simp only [stencil_pot_read]
    omega
  · simp only [stencil_pot_read]
    generalize j * dim = a at hjd hjd1 hup
    generalize dim * dim = b at hup
    omega

theorem stencil_reads_in_bounds_witness :
    (1 : Int) ∈ stencil_range 4 ∧ (2 : Int) ∈ stencil_range 4 ∧
    stencil_psi_reads 4 1 2
      = [2 + 1 * 4, 2 + 1 + 1 * 4, 2 - 1 + 1 * 4, 2 + (1 + 1) * 4, 2 + (1 - 1) * 4] ∧
    (∀ idx ∈ stencil_psi_reads 4 1 2, 0 ≤ idx ∧ idx < 4 * 4) ∧
    0 ≤ stencil_pot_read 4 1 2 ∧ stencil_pot_read 4 1 2 < 4 * 4 :=
  stencil_reads_in_bounds 4 1 2 (by decide) (by decide) (by decide) (by decide) (by decide)

/-! ### The line merger -/

section ReshaperLemmas

variable {α : Type}

theorem merge_line_loop_exit (evens odds : Nat → α) (x width fuel : Nat) (s : LineState α)
    (h : ¬ s.dest_x < (x + width) - (x + width) % 2) :
    merge_line_loop evens odds x width fuel s = some s := by
  cases fuel <;> simp [merge_line_loop, h]

/-- The loop of `merge_line` started at position `k` of the run with `n` pairs left:
it ends, having written the `2 * n` cells from `k` on. -/
theorem merge_line_loop_spec (evens odds : Nat → α) (x width : Nat) (n : Nat) :
    ∀ (fuel k : Nat) (s : LineState α), n ≤ fuel → s.dest_x = x + k →
      x + k + 2 * n = (x + width) - (x + width) % 2 →
      merge_line_loop evens odds x width fuel s = some
        { dest := fun i =>
            if k ≤ i ∧ i < k + 2 * n then
              (if (i - k) % 2 = 0 then evens (s.evens_p + (i - k) / 2)
               else odds (s.odds_p + (i - k) / 2))
            else s.dest i,
          dest_x := s.dest_x + 2 * n,
          evens_p := s.evens_p + n,
          odds_p := s.odds_p + n } := by
  induction n with
  | zero =>
    intro fuel k s _ hk hB
    rw [merge_line_loop_exit evens odds x width fuel s (by omega)]
    cases s
    simp only [Nat.mul_zero, Nat.add_zero, Option.some.injEq, LineState.mk.injEq, and_true]
    funext i
    have h0 : ¬ (k ≤ i ∧ i < k) := by omega
    simp only [h0, if_false]
  | succ n ih =>
    intro fuel k s hf hk hB
    obtain ⟨fuel, rfl⟩ : ∃ f, fuel = f + 1 := ⟨fuel - 1, by omega⟩
    have hlt : s.dest_x < (x + width) - (x + width) % 2 := by omega
    rw [merge_line_loop, if_pos hlt]
    rw [ih fuel (k + 2) _ (by omega) (by simp only []; omega) (by omega)]
    simp only [Option.some.injEq, LineState.mk.injEq]
    refine ⟨?_, by omega, by omega, by omega⟩
    funext i
    have e1 : s.dest_x - x = k := by omega
    have e2 : s.dest_x + 1 - x = k + 1 := by omega
    simp only [e1, e2, Function.update_apply]
    by_cases h1 : i = k
    · subst h1
      simp
    · by_cases h2 : i = k + 1
      · subst h2
        have h8 : 1 < 2 * (n + 1) := by omega
        simp [h8]
      · by_cases h3 : k + 2 ≤ i ∧ i < k + 2 + 2 * n
        · have h4 : k ≤ i ∧ i < k + 2 * (n + 1) := by omega
          have h5 : (i - (k + 2)) % 2 = (i - k) % 2 := by omega
          have h6 : s.evens_p + 1 + (i - (k + 2)) / 2 = s.evens_p + (i - k) / 2 := by omega
          have h7 : s.odds_p + 1 + (i - (k + 2)) / 2 = s.odds_p + (i - k) / 2 := by omega
          simp only [h3, h4, h5, h6, h7, and_self, if_true]
        · have h4 : ¬ (k ≤ i ∧ i < k + 2 * (n + 1)) := by omega
          simp only [h3, h4, if_false, h1, h2]

/-- The state of `merge_line` at its assertion: the loop always ends, the cells
`0 .. width - 1` hold the merged values (and cell 0 as well when `x` is odd, even
for `width = 0`), the other cells are untouched, and `dest_x` is `x + width`
except for odd `x` with `width = 0`, where it is `x + 1`. -/
theorem merge_line_run_spec (evens odds : Nat → α) (x width : Nat) (dest : Nat → α) :
    ∃ s : LineState α, merge_line_run evens odds x width dest = some s ∧
      s.dest_x = (if x % 2 = 1 ∧ width = 0 then x + 1 else x + width) ∧
      ∀ i, s.dest i =
        if i < width ∨ (i = 0 ∧ x % 2 = 1) then merge_line_cell evens odds x i
        else dest i := by
  by_cases hx : x % 2 = 1
  · by_cases hw : width = 0
    · subst hw
      simp only [merge_line_run, if_pos hx]
      rw [merge_line_loop_exit _ _ _ _ _ _ (by simp only []; omega)]
      simp only [Option.map_some']
      refine ⟨_, rfl, ?_, ?_⟩
      · simp [hx]
      · intro i
        by_cases hi : i = 0
        · subst hi
          simp [hx, merge_line_cell]
        · simp [hx, hi, Function.update_apply]
    · have hloop := merge_line_loop_spec evens odds x width ((width - 1) / 2) width 1
        { dest := Function.update dest (x - x) (odds (x / 2)), dest_x := x + 1,
          evens_p := x / 2, odds_p := x / 2 + 1 }
        (by omega) rfl (by omega)
      simp only [merge_line_run, if_pos hx]
      rw [hloop]
      simp only [Option.map_some']
      refine ⟨_, rfl, ?_, ?_⟩
      · split_ifs <;> simp only [] <;> omega
      · intro i
        by_cases hc : x + 1 + 2 * ((width - 1) / 2) < x + width
        · simp only [if_pos hc, merge_line_cell, Function.update_apply, Nat.sub_self]
          split_ifs <;> first | rfl | (exfalso; omega) | (congr 1; omega)
        · simp only [if_neg hc, merge_line_cell, Function.update_apply, Nat.sub_self]
          split_ifs <;> first | rfl | (exfalso; omega) | (congr 1; omega)
  · have hloop := merge_line_loop_spec evens odds x width (width / 2) width 0
      { dest := dest, dest_x := x, evens_p := x / 2, odds_p := x / 2 }
      (by omega) rfl (by omega)
    simp only [merge_line_run, if_neg hx]
    rw [hloop]
    simp only [Option.map_some']
    refine ⟨_, rfl, ?_, ?_⟩
    · split_ifs <;> simp only [] <;> omega
    · intro i
      by_cases hc : x + 2 * (width / 2) < x + width
      · simp only [if_pos hc, merge_line_cell, Function.update_apply, Nat.sub_self]
        split_ifs <;> first | rfl | (exfalso; omega) | (congr 1; omega)
      · simp only [if_neg hc, merge_line_cell, Function.update_apply, Nat.sub_self]
        split_ifs <;> first | rfl | (exfalso; omega)

/-- Unless `x` is odd and `width = 0`, `merge_line` returns: the cells
`0 .. width - 1` hold the merged values and every other cell is unchanged. -/
theorem merge_line_spec (evens odds : Nat → α) (x width : Nat) (dest : Nat → α)
    (h : ¬ (x % 2 = 1 ∧ width = 0)) :
    ∃ d : Nat → α, merge_line evens odds x width dest = some d ∧
      ∀ i, d i = if i < width then merge_line_cell evens odds x i else dest i := by
  obtain ⟨s, hs, hx, hd⟩ := merge_line_run_spec evens odds x width dest
  rw [if_neg h] at hx
  refine ⟨s.dest, ?_, ?_⟩
  · simp [merge_line, hs, hx]
  · intro i
    rw [hd i]
    by_cases hi : i < width
    · simp [hi]
    · have h2 : ¬ (i = 0 ∧ x % 2 = 1) := by omega
      simp [hi, h2]

/-- For odd `x` and `width = 0` the assertion of `merge_line` fails. -/
theorem merge_line_abort (evens odds : Nat → α) (x : Nat) (dest : Nat → α)
    (hx : x % 2 = 1) : merge_line evens odds x 0 dest = none := by
  obtain ⟨s, hs, hdx, _⟩ := merge_line_run_spec evens odds x 0 dest
  rw [if_pos ⟨hx, rfl⟩] at hdx
  simp [merge_line, hs, hdx]

/-! ### The packed variants against the in-place ones -/

theorem merge_line_to_buffer_loop_sim (evens odds : Nat → α) (x width : Nat) :
    ∀ (fuel : Nat) (s : BufferLineState α), x ≤ s.dest_x → s.buffer_x = s.dest_x - x →
      (merge_line_to_buffer_loop evens odds x width fuel s).map BufferLineState.toLine
          = merge_line_loop evens odds x width fuel s.toLine ∧
      ∀ t, merge_line_to_buffer_loop evens odds x width fuel s = some t →
        x ≤ t.dest_x ∧ t.buffer_x = t.dest_x - x := by
  intro fuel
  induction fuel with
  | zero =>
    intro s hx hb
    by_cases hc : s.dest_x < (x + width) - (x + width) % 2
    · simp [merge_line_to_buffer_loop, merge_line_loop, BufferLineState.toLine, hc]
    · simp only [merge_line_to_buffer_loop, merge_line_loop, BufferLineState.toLine, hc,
        if_false, Option.map_some', Option.some.injEq, true_and]
      intro t ht
      subst ht
      exact ⟨hx, hb⟩
  | succ fuel ih =>
    intro s hx hb
    by_cases hc : s.dest_x < (x + width) - (x + width) % 2
    · have e1 : s.dest_x + 1 - x = s.buffer_x + 1 := by omega
      have ih2 := ih
        { dest := Function.update (Function.update s.dest s.buffer_x (evens s.evens_p))
            (s.buffer_x + 1) (odds s.odds_p),
          dest_x := s.dest_x + 1 + 1, buffer_x := s.buffer_x + 1 + 1,
          evens_p := s.evens_p + 1, odds_p := s.odds_p + 1 }
        (by simp only []; omega) (by simp only []; omega)
      simp only [merge_line_to_buffer_loop, merge_line_loop, BufferLineState.toLine, hc,
        if_true, e1, ← hb]
      simpa only [BufferLineState.toLine] using ih2
    · simp only [merge_line_to_buffer_loop, merge_line_loop, BufferLineState.toLine, hc,
        if_false, Option.map_some', Option.some.injEq, true_and]
      intro t ht
      subst ht
      exact ⟨hx, hb⟩

theorem merge_line_to_buffer_run_sim (evens odds : Nat → α) (x width : Nat)
    (dest : Nat → α) :
    (merge_line_to_buffer_run evens odds x width dest).map BufferLineState.toLine
      = merge_line_run evens odds x width dest := by
  by_cases hx : x % 2 = 1
  · obtain ⟨h1, h2⟩ := merge_line_to_buffer_loop_sim evens odds x width width
      { dest := Function.update dest 0 (odds (x / 2)), dest_x := x + 1, buffer_x := 0 + 1,
        evens_p := x / 2, odds_p := x / 2 + 1 }
      (by simp only []; omega) (by simp only []; omega)
    simp only [merge_line_to_buffer_run, merge_line_run, if_pos hx, Nat.sub_self]
    simp only [BufferLineState.toLine] at h1
    rw [← h1]
    cases hl : merge_line_to_buffer_loop evens odds x width width
      { dest := Function.update dest 0 (odds (x / 2)), dest_x := x + 1, buffer_x := 0 + 1,
        evens_p := x / 2, odds_p := x / 2 + 1 } with
    | none => rfl
    | some t =>
      obtain ⟨_, h4⟩ := h2 t hl
      simp only [Option.map_some', BufferLineState.toLine, Option.some.injEq]
      split_ifs
      · simp only [h4]
      · rfl
  · obtain ⟨h1, h2⟩ := merge_line_to_buffer_loop_sim evens odds x width width
      { dest := dest, dest_x := x, buffer_x := 0, evens_p := x / 2, odds_p := x / 2 }
      (by simp only []; omega) (by simp only []; omega)
    simp only [merge_line_to_buffer_run, merge_line_run, if_neg hx]
    simp only [BufferLineState.toLine] at h1
    rw [← h1]
    cases hl : merge_line_to_buffer_loop evens odds x width width
      { dest := dest, dest_x := x, buffer_x := 0, evens_p := x / 2, odds_p := x / 2 } with
    | none => rfl
    | some t =>
      obtain ⟨_, h4⟩ := h2 t hl
      simp only [Option.map_some', BufferLineState.toLine, Option.some.injEq]
      split_ifs
      · simp only [h4]
      · rfl

/-- The packed line merger computes what the in-place one computes. -/
theorem merge_line_to_buffer_eq (evens odds : Nat → α) (x width : Nat) (dest : Nat → α) :
    merge_line_to_buffer evens odds x width dest = merge_line evens odds x width dest := by
  rw [merge_line, ← merge_line_to_buffer_run_sim, merge_line_to_buffer]
  cases merge_line_to_buffer_run evens odds x width dest with
  | none => rfl
  | some t => rfl

theorem merge_line_to_buffer_at_eq (evens odds : Nat → α) (x width : Nat) (dest : Nat → α)
    (k : Nat) :
    merge_line_to_buffer_at evens odds x width dest k
      = merge_line_at evens odds x width dest k := by
  rw [merge_line_to_buffer_at, merge_line_at, merge_line_to_buffer_eq]

theorem get_quadrant_sample_to_buffer_loop_sim (q : Quadrants α)
    (src_stride dest_stride x y width height : Nat) :
    ∀ (fuel : Nat) (s : BufferSampleState α), y ≤ s.dest_y → s.buffer_y = s.dest_y - y →
      (get_quadrant_sample_to_buffer_loop q src_stride dest_stride x y width height fuel
          s).map BufferSampleState.toSample
        = get_quadrant_sample_loop q src_stride dest_stride x y width height fuel s.toSample ∧
      ∀ t, get_quadrant_sample_to_buffer_loop q src_stride dest_stride x y width height fuel
          s = some t → y ≤ t.dest_y ∧ t.buffer_y = t.dest_y - y := by
  intro fuel
  induction fuel with
  | zero =>
    intro s hy hb
    by_cases hc : s.dest_y < (y + height) - (y + height) % 2
    · simp [get_quadrant_sample_to_buffer_loop, get_quadrant_sample_loop,
        BufferSampleState.toSample, hc]
    · simp only [get_quadrant_sample_to_buffer_loop, get_quadrant_sample_loop,
        BufferSampleState.toSample, hc, if_false, Option.map_some', Option.some.injEq,
        true_and]
      intro t ht
      subst ht
      exact ⟨hy, hb⟩
  | succ fuel ih =>
    intro s hy hb
    by_cases hc : s.dest_y < (y + height) - (y + height) % 2
    · have e1 : s.dest_y + 1 - y = s.buffer_y + 1 := by omega
      simp only [get_quadrant_sample_to_buffer_loop, get_quadrant_sample_loop,
        BufferSampleState.toSample, hc, if_true, e1, ← hb, merge_line_to_buffer_at_eq]
      cases merge_line_at (offset q.r00 (s.dest_y / 2 * src_stride))
        (offset q.r01 (s.dest_y / 2 * src_stride)) x width s.dest_real
        (s.buffer_y * dest_stride) with
      | none => simp
      | some dr1 =>
      simp only [Option.some_bind]
      cases merge_line_at (offset q.i00 (s.dest_y / 2 * src_stride))
        (offset q.i01 (s.dest_y / 2 * src_stride)) x width s.dest_imag
        (s.buffer_y * dest_stride) with
      | none => simp
      | some di1 =>
      simp only [Option.some_bind]
      cases merge_line_at (offset q.r10 ((s.dest_y + 1) / 2 * src_stride))
        (offset q.r11 ((s.dest_y + 1) / 2 * src_stride)) x width dr1
        ((s.buffer_y + 1) * dest_stride) with
      | none => simp
      | some dr2 =>
      simp only [Option.some_bind]
      cases merge_line_at (offset q.i10 ((s.dest_y + 1) / 2 * src_stride))
        (offset q.i11 ((s.dest_y + 1) / 2 * src_stride)) x width di1
        ((s.buffer_y + 1) * dest_stride) with
      | none => simp
      | some di2 =>
      have ih2 := ih
        { dest_real := dr2, dest_imag := di2, dest_y := s.dest_y + 1 + 1,
          buffer_y := s.buffer_y + 1 + 1 }
        (by simp only []; omega) (by simp only []; omega)
      simpa only [BufferSampleState.toSample, Option.some_bind] using ih2
    · simp only [get_quadrant_sample_to_buffer_loop, get_quadrant_sample_loop,
        BufferSampleState.toSample, hc, if_false, Option.map_some', Option.some.injEq,
        true_and]
      intro t ht
      subst ht
      exact ⟨hy, hb⟩

theorem get_quadrant_sample_to_buffer_run_sim (q : Quadrants α)
    (src_stride dest_stride x y width height : Nat) (dest_real dest_imag : Nat → α) :
    (get_quadrant_sample_to_buffer_run q src_stride dest_stride x y width height
        dest_real dest_imag).map BufferSampleState.toSample
      = get_quadrant_sample_run q src_stride dest_stride x y width height
          dest_real dest_imag := by
  have tail : ∀ s : BufferSampleState α, y ≤ s.dest_y → s.buffer_y = s.dest_y - y →
      ((get_quadrant_sample_to_buffer_loop q src_stride dest_stride x y width height height
          s).bind fun s2 =>
        if s2.dest_y < y + height then
          (merge_line_at (offset q.r00 ((s2.dest_y / 2) * src_stride))
              (offset q.r01 ((s2.dest_y / 2) * src_stride)) x width
              s2.dest_real (s2.buffer_y * dest_stride)).bind fun dr =>
          (merge_line_at (offset q.i00 ((s2.dest_y / 2) * src_stride))
              (offset q.i01 ((s2.dest_y / 2) * src_stride)) x width
              s2.dest_imag (s2.buffer_y * dest_stride)).bind fun di =>
          some { s2 with dest_real := dr, dest_imag := di }
        else some s2).map BufferSampleState.toSample
      = (get_quadrant_sample_loop q src_stride dest_stride x y width height height
          s.toSample).bind fun s2 =>
        if s2.dest_y < y + height then
          (merge_line_at (offset q.r00 ((s2.dest_y / 2) * src_stride))
              (offset q.r01 ((s2.dest_y / 2) * src_stride)) x width
              s2.dest_real ((s2.dest_y - y) * dest_stride)).bind fun dr =>
          (merge_line_at (offset q.i00 ((s2.dest_y / 2) * src_stride))
              (offset q.i01 ((s2.dest_y / 2) * src_stride)) x width
              s2.dest_imag ((s2.dest_y - y) * dest_stride)).bind fun di =>
          some { s2 with dest_real := dr, dest_imag := di }
        else some s2 := by
    intro s hy hb
    obtain ⟨h1, h2⟩ := get_quadrant_sample_to_buffer_loop_sim q src_stride dest_stride x y
      width height height s hy hb
    rw [← h1]
    cases hl : get_quadrant_sample_to_buffer_loop q src_stride dest_stride x y width height
      height s with
    | none => rfl
    | some t =>
      obtain ⟨_, h4⟩ := h2 t hl
      simp only [Option.some_bind, Option.map_some', BufferSampleState.toSample, h4]
      split_ifs
      · cases merge_line_at (offset q.r00 (t.dest_y / 2 * src_stride))
          (offset q.r01 (t.dest_y / 2 * src_stride)) x width t.dest_real
          ((t.dest_y - y) * dest_stride) with
        | none => rfl
        | some dr =>
          simp only [Option.some_bind]
          cases merge_line_at (offset q.i00 (t.dest_y / 2 * src_stride))
            (offset q.i01 (t.dest_y / 2 * src_stride)) x width t.dest_imag
            ((t.dest_y - y) * dest_stride) with
          | none => rfl
          | some di => rfl
      · rfl
  by_cases hy : y % 2 = 1
  · simp only [get_quadrant_sample_to_buffer_run, get_quadrant_sample_run, if_pos hy,
      merge_line_to_buffer_at_eq]
    cases merge_line_at (offset q.r10 (y / 2 * src_stride))
      (offset q.r11 (y / 2 * src_stride)) x width dest_real 0 with
    | none => rfl
    | some dr =>
      simp only [Option.some_bind]
      cases merge_line_at (offset q.i10 (y / 2 * src_stride))
        (offset q.i11 (y / 2 * src_stride)) x width dest_imag 0 with
      | none => rfl
      | some di =>
        simp only [Option.some_bind]
        exact tail { dest_real := dr, dest_imag := di, dest_y := y + 1, buffer_y := 0 + 1 }
          (by simp only []; omega) (by simp only []; omega)
  · simp only [get_quadrant_sample_to_buffer_run, get_quadrant_sample_run, if_neg hy,
      Option.some_bind, merge_line_to_buffer_at_eq]
    exact tail { dest_real := dest_real, dest_imag := dest_imag, dest_y := y, buffer_y := 0 }
      (by simp only []; omega) (by simp only []; omega)

/-- The packed quadrant sampler computes what the in-place one computes. -/
theorem get_quadrant_sample_to_buffer_eq (q : Quadrants α)
    (src_stride dest_stride x y width height : Nat) (dest_real dest_imag : Nat → α) :
    get_quadrant_sample_to_buffer q src_stride dest_stride x y width height
        dest_real dest_imag
      = get_quadrant_sample q src_stride dest_stride x y width height
          dest_real dest_imag := by
  rw [get_quadrant_sample, ← get_quadrant_sample_to_buffer_run_sim,
    get_quadrant_sample_to_buffer]
  cases get_quadrant_sample_to_buffer_run q src_stride dest_stride x y width height
      dest_real dest_imag with
  | none => rfl
  | some t => rfl

/-! ### Termination of the quadrant sampler -/

/-- Unless `x` is odd and `width = 0`, a call `merge_line(.., &dest[k])` returns, having
put the merged values into the cells `k .. k + width - 1` and nothing else. -/
theorem merge_line_at_spec (evens odds : Nat → α) (x width : Nat) (dest : Nat → α) (k : Nat)
    (h : ¬ (x % 2 = 1 ∧ width = 0)) :
    ∃ d : Nat → α, merge_line_at evens odds x width dest k = some d ∧
      ∀ i, d i = if k ≤ i ∧ i < k + width then merge_line_cell evens odds x (i - k)
        else dest i := by
  obtain ⟨d, hd, hcell⟩ := merge_line_spec evens odds x width (offset dest k) h
  refine ⟨store dest k d, by simp [merge_line_at, hd], ?_⟩
  intro i
  by_cases hk : k ≤ i
  · have e : k + (i - k) = i := by omega
    simp only [store, if_pos hk, hcell, offset, e]
    by_cases hi : i - k < width
    · have h2 : k ≤ i ∧ i < k + width := by omega
      simp only [if_pos hi, if_pos h2]
    · have h2 : ¬ (k ≤ i ∧ i < k + width) := by omega
      simp only [if_neg hi, if_neg h2]
  · have h2 : ¬ (k ≤ i ∧ i < k + width) := by omega
    simp only [store, if_neg hk, if_neg h2]

theorem get_quadrant_sample_loop_exit (q : Quadrants α)
    (src_stride dest_stride x y width height fuel : Nat) (s : SampleState α)
    (h : ¬ s.dest_y < (y + height) - (y + height) % 2) :
    get_quadrant_sample_loop q src_stride dest_stride x y width height fuel s = some s := by
  cases fuel <;> simp [get_quadrant_sample_loop, h]

/-- With `n` pairs of rows left and at least `n` units of fuel, the loop of
`get_quadrant_sample` ends with `dest_y` at the loop bound. -/
theorem get_quadrant_sample_loop_total (q : Quadrants α)
    (src_stride dest_stride x y width height : Nat) (hxw : ¬ (x % 2 = 1 ∧ width = 0))
    (n : Nat) :
    ∀ (fuel : Nat) (s : SampleState α), n ≤ fuel →
      s.dest_y + 2 * n = (y + height) - (y + height) % 2 →
      ∃ t, get_quadrant_sample_loop q src_stride dest_stride x y width height fuel s = some t ∧
        t.dest_y = (y + height) - (y + height) % 2 := by
  induction n with
  | zero =>
    intro fuel s _ hB
    exact ⟨s, get_quadrant_sample_loop_exit q src_stride dest_stride x y width height fuel s
      (by omega), by omega⟩
  | succ n ih =>
    intro fuel s hf hB
    obtain ⟨fuel, rfl⟩ : ∃ f, fuel = f + 1 := ⟨fuel - 1, by omega⟩
    have hlt : s.dest_y < (y + height) - (y + height) % 2 := by omega
    obtain ⟨dr1, h1, _⟩ := merge_line_at_spec (offset q.r00 ((s.dest_y / 2) * src_stride))
      (offset q.r01 ((s.dest_y / 2) * src_stride)) x width s.dest_real
      ((s.dest_y - y) * dest_stride) hxw
    obtain ⟨di1, h2, _⟩ := merge_line_at_spec (offset q.i00 ((s.dest_y / 2) * src_stride))
      (offset q.i01 ((s.dest_y / 2) * src_stride)) x width s.dest_imag
      ((s.dest_y - y) * dest_stride) hxw
    obtain ⟨dr2, h3, _⟩ := merge_line_at_spec
      (offset q.r10 (((s.dest_y + 1) / 2) * src_stride))
      (offset q.r11 (((s.dest_y + 1) / 2) * src_stride)) x width dr1
      ((s.dest_y + 1 - y) * dest_stride) hxw
    obtain ⟨di2, h4, _⟩ := merge_line_at_spec
      (offset q.i10 (((s.dest_y + 1) / 2) * src_stride))
      (offset q.i11 (((s.dest_y + 1) / 2) * src_stride)) x width di1
      ((s.dest_y + 1 - y) * dest_stride) hxw
    rw [get_quadrant_sample_loop, if_pos hlt]
    simp only [h1, h2, h3, h4, Option.some_bind]
    exact ih fuel _ (by omega) (by simp only []; omega)

/-- The state of `get_quadrant_sample` at its assertion: unless `x` is odd and
`width = 0`, every call of `merge_line` returns and the loop ends; `dest_y` is then
`y + height` rounded down to an even number (the last `if` writes the final row of an
odd `y + height` without advancing `dest_y`), or `y + 1` for odd `y` with
`height = 0`. -/
theorem get_quadrant_sample_run_total (q : Quadrants α)
    (src_stride dest_stride x y width height : Nat) (dest_real dest_imag : Nat → α)
    (hxw : ¬ (x % 2 = 1 ∧ width = 0)) :
    ∃ t, get_quadrant_sample_run q src_stride dest_stride x y width height
        dest_real dest_imag = some t ∧
      t.dest_y = (if y % 2 = 1 ∧ height = 0 then y + 1
        else (y + height) - (y + height) % 2) := by
  have tail : ∀ s : SampleState α, s.dest_y = y + y % 2 →
      ∃ t, ((get_quadrant_sample_loop q src_stride dest_stride x y width height height
          s).bind fun s2 =>
        if s2.dest_y < y + height then
          (merge_line_at (offset q.r00 ((s2.dest_y / 2) * src_stride))
              (offset q.r01 ((s2.dest_y / 2) * src_stride)) x width
              s2.dest_real ((s2.dest_y - y) * dest_stride)).bind fun dr =>
          (merge_line_at (offset q.i00 ((s2.dest_y / 2) * src_stride))
              (offset q.i01 ((s2.dest_y / 2) * src_stride)) x width
              s2.dest_imag ((s2.dest_y - y) * dest_stride)).bind fun di =>
          some { s2 with dest_real := dr, dest_imag := di }
        else some s2) = some t ∧
        t.dest_y = (if y % 2 = 1 ∧ height = 0 then y + 1
          else (y + height) - (y + height) % 2) := by
    intro s hs
    have hloop : ∃ t, get_quadrant_sample_loop q src_stride dest_stride x y width height
        height s = some t ∧
        t.dest_y = (if y % 2 = 1 ∧ height = 0 then y + 1
          else (y + height) - (y + height) % 2) := by
      by_cases h0 : y % 2 = 1 ∧ height = 0
      · rw [get_quadrant_sample_loop_exit _ _ _ _ _ _ _ _ _ (by omega)]
        exact ⟨s, rfl, by rw [if_pos h0]; omega⟩
      · obtain ⟨t, ht, hty⟩ := get_quadrant_sample_loop_total q src_stride dest_stride x y
          width height hxw (((y + height) - (y + height) % 2 - (y + y % 2)) / 2) height s
          (by omega) (by omega)
        exact ⟨t, ht, by rw [if_neg h0]; exact hty⟩
    obtain ⟨t, ht, hty⟩ := hloop
    rw [ht]
    simp only [Option.some_bind]
    by_cases hc : t.dest_y < y + height
    · obtain ⟨dr, h1, _⟩ := merge_line_at_spec (offset q.r00 ((t.dest_y / 2) * src_stride))
        (offset q.r01 ((t.dest_y / 2) * src_stride)) x width t.dest_real
        ((t.dest_y - y) * dest_stride) hxw
      obtain ⟨di, h2, _⟩ := merge_line_at_spec (offset q.i00 ((t.dest_y / 2) * src_stride))
        (offset q.i01 ((t.dest_y / 2) * src_stride)) x width t.dest_imag
        ((t.dest_y - y) * dest_stride) hxw
      simp only [if_pos hc, h1, h2, Option.some_bind]
      exact ⟨_, rfl, hty⟩
    · simp only [if_neg hc]
      exact ⟨_, rfl, hty⟩
  by_cases hy : y % 2 = 1
  · obtain ⟨dr, h1, _⟩ := merge_line_at_spec (offset q.r10 ((y / 2) * src_stride))
      (offset q.r11 ((y / 2) * src_stride)) x width dest_real 0 hxw
    obtain ⟨di, h2, _⟩ := merge_line_at_spec (offset q.i10 ((y / 2) * src_stride))
      (offset q.i11 ((y / 2) * src_stride)) x width dest_imag 0 hxw
    simp only [get_quadrant_sample_run, if_pos hy, h1, h2, Option.some_bind]
    exact tail _ (by simp only []; omega)
  · simp only [get_quadrant_sample_run, if_neg hy, Option.some_bind]
    exact tail _ (by simp only []; omega)

/-- With `width ≥ 1`, the assertion of `get_quadrant_sample` holds exactly when
`y + height` is even. -/
theorem get_quadrant_sample_isSome_iff (q : Quadrants α)
    (src_stride dest_stride x y width height : Nat) (dest_real dest_imag : Nat → α)
    (hw : 1 ≤ width) :
    (get_quadrant_sample q src_stride dest_stride x y width height
        dest_real dest_imag).isSome = true ↔ (y + height) % 2 = 0 := by
  obtain ⟨t, ht, hty⟩ := get_quadrant_sample_run_total q src_stride dest_stride x y width
    height dest_real dest_imag (by omega)
  simp only [get_quadrant_sample, ht, Option.some_bind]
  by_cases h0 : y % 2 = 1 ∧ height = 0
  · rw [if_pos h0] at hty
    have hne : ¬ t.dest_y = y + height := by omega
    simp only [if_neg hne, Option.isSome_none]
    constructor
    · intro h; exact absurd h (by decide)
    · intro h; omega
  · rw [if_neg h0] at hty
    by_cases he : (y + height) % 2 = 0
    · have heq : t.dest_y = y + height := by omega
      simp [if_pos heq, he]
    · have hne : ¬ t.dest_y = y + height := by omega
      simp [if_neg hne, he]

/-! ### The cells written by the quadrant sampler -/

theorem mem_row_iff (ds width k c : Nat) (hws : width ≤ ds) :
    (k * ds ≤ c ∧ c < k * ds + width) ↔ (c / ds = k ∧ c % ds < width) := by
  rcases Nat.eq_zero_or_pos ds with h0 | hpos
  · subst h0
    have hw0 : width = 0 := by omega
    subst hw0
    simp
  · have hdm := Nat.div_add_mod c ds
    have hml := Nat.mod_lt c hpos
    constructor
    · rintro ⟨h1, h2⟩
      have hk : c / ds = k := by
        apply Nat.div_eq_of_lt_le
        · exact h1
        · rw [Nat.succ_mul]; omega
      subst hk
      have e : ds * (c / ds) = c / ds * ds := Nat.mul_comm _ _
      exact ⟨rfl, by omega⟩
    · rintro ⟨h1, h2⟩
      subst h1
      have e : ds * (c / ds) = c / ds * ds := Nat.mul_comm _ _
      constructor <;> omega

theorem sub_row_start (ds k c : Nat) (h : c / ds = k) : c - k * ds = c % ds := by
  have hdm := Nat.div_add_mod c ds
  subst h
  have e : ds * (c / ds) = c / ds * ds := Nat.mul_comm _ _
  omega

/-- A call `merge_line(.., &dest[k * dest_stride])` with `width ≤ dest_stride` fills the
first `width` cells of row `k` and leaves the other cells alone. -/
theorem merge_line_at_row (evens odds : Nat → α) (x width : Nat) (dest : Nat → α)
    (ds k : Nat) (h : ¬ (x % 2 = 1 ∧ width = 0)) (hws : width ≤ ds) :
    ∃ d : Nat → α, merge_line_at evens odds x width dest (k * ds) = some d ∧
      ∀ c, d c = if c / ds = k ∧ c % ds < width then merge_line_cell evens odds x (c % ds)
        else dest c := by
  obtain ⟨d, hd, hcell⟩ := merge_line_at_spec evens odds x width dest (k * ds) h
  refine ⟨d, hd, ?_⟩
  intro c
  rw [hcell c]
  by_cases hc : c / ds = k ∧ c % ds < width
  · rw [if_pos hc, if_pos ((mem_row_iff ds width k c hws).mpr hc), sub_row_start ds k c hc.1]
  · have hc2 : ¬ (k * ds ≤ c ∧ c < k * ds + width) :=
      fun h2 => hc ((mem_row_iff ds width k c hws).mp h2)
    rw [if_neg hc, if_neg hc2]

/-- Two row writes (rows `k` and `k + 1`) followed by the rows `k + 2 .. k + 2 * n + 1`
amount to the rows `k .. k + 2 * (n + 1) - 1`. -/
theorem rows_step (F : Nat → Nat → α) (A B : Nat → α) (d0 d1 d2 t : Nat → α)
    (ds width k n : Nat)
    (c1 : ∀ c, d1 c = if c / ds = k ∧ c % ds < width then A (c % ds) else d0 c)
    (c3 : ∀ c, d2 c = if c / ds = k + 1 ∧ c % ds < width then B (c % ds) else d1 c)
    (ht : ∀ c, t c =
      if k + 2 ≤ c / ds ∧ c / ds < k + 2 + 2 * n ∧ c % ds < width then F (c / ds) (c % ds)
      else d2 c)
    (hA : ∀ i, A i = F k i) (hB : ∀ i, B i = F (k + 1) i) :
    ∀ c, t c =
      if k ≤ c / ds ∧ c / ds < k + 2 * (n + 1) ∧ c % ds < width then F (c / ds) (c % ds)
      else d0 c := by
  intro c
  rw [ht c, c3 c, c1 c]
  by_cases ha : c / ds = k
  · have g1 : ¬ (k + 2 ≤ c / ds ∧ c / ds < k + 2 + 2 * n ∧ c % ds < width) := by omega
    have g2 : ¬ (c / ds = k + 1 ∧ c % ds < width) := by omega
    by_cases hb : c % ds < width
    · have g3 : k ≤ c / ds ∧ c / ds < k + 2 * (n + 1) ∧ c % ds < width := by omega
      rw [if_neg g1, if_neg g2, if_pos ⟨ha, hb⟩, if_pos g3, ha, hA]
    · have g3 : ¬ (k ≤ c / ds ∧ c / ds < k + 2 * (n + 1) ∧ c % ds < width) := by omega
      have g4 : ¬ (c / ds = k ∧ c % ds < width) := by omega
      rw [if_neg g1, if_neg g2, if_neg g4, if_neg g3]
  · by_cases ha1 : c / ds = k + 1
    · have g1 : ¬ (k + 2 ≤ c / ds ∧ c / ds < k + 2 + 2 * n ∧ c % ds < width) := by omega
      have g0 : ¬ (c / ds = k ∧ c % ds < width) := by omega
      by_cases hb : c % ds < width
      · have g3 : k ≤ c / ds ∧ c / ds < k + 2 * (n + 1) ∧ c % ds < width := by omega
        rw [if_neg g1, if_pos ⟨ha1, hb⟩, if_pos g3, ha1, hB]
      · have g3 : ¬ (k ≤ c / ds ∧ c / ds < k + 2 * (n + 1) ∧ c % ds < width) := by omega
        have g2 : ¬ (c / ds = k + 1 ∧ c % ds < width) := by omega
        rw [if_neg g1, if_neg g2, if_neg g0, if_neg g3]
    · have g0 : ¬ (c / ds = k ∧ c % ds < width) := by omega
      have g2 : ¬ (c / ds = k + 1 ∧ c % ds < width) := by omega
      by_cases g1 : k + 2 ≤ c / ds ∧ c / ds < k + 2 + 2 * n ∧ c % ds < width
      · have g3 : k ≤ c / ds ∧ c / ds < k + 2 * (n + 1) ∧ c % ds < width := by omega
        rw [if_pos g1, if_pos g3]
      · have g3 : ¬ (k ≤ c / ds ∧ c / ds < k + 2 * (n + 1) ∧ c % ds < width) := by omega
        rw [if_neg g1, if_neg g2, if_neg g0, if_neg g3]

/-- The loop of `get_quadrant_sample` started at row `k` (an even global row) with `n`
pairs of rows left: it ends, having filled the rows `k .. k + 2 * n - 1` of both
planes. -/
theorem get_quadrant_sample_loop_cells (q : Quadrants α)
    (src_stride dest_stride x y width height : Nat) (hxw : ¬ (x % 2 = 1 ∧ width = 0))
    (hws : width ≤ dest_stride) (n : Nat) :
    ∀ (fuel k : Nat) (s : SampleState α), n ≤ fuel → s.dest_y = y + k → (y + k) % 2 = 0 →
      y + k + 2 * n = (y + height) - (y + height) % 2 →
      ∃ t, get_quadrant_sample_loop q src_stride dest_stride x y width height fuel s = some t ∧
        t.dest_y = s.dest_y + 2 * n ∧
        (∀ c, t.dest_real c =
          if k ≤ c / dest_stride ∧ c / dest_stride < k + 2 * n ∧ c % dest_stride < width then
            sample_cell q.r00 q.r01 q.r10 q.r11 src_stride x y (c / dest_stride)
              (c % dest_stride)
          else s.dest_real c) ∧
        (∀ c, t.dest_imag c =
          if k ≤ c / dest_stride ∧ c / dest_stride < k + 2 * n ∧ c % dest_stride < width then
            sample_cell q.i00 q.i01 q.i10 q.i11 src_stride x y (c / dest_stride)
              (c % dest_stride)
          else s.dest_imag c) := by
  induction n with
  | zero =>
    intro fuel k s _ hk _ hB
    refine ⟨s, get_quadrant_sample_loop_exit q src_stride dest_stride x y width height fuel s
      (by omega), by omega, ?_, ?_⟩ <;>
    · intro c
      have h0 : ¬ (k ≤ c / dest_stride ∧ c / dest_stride < k + 2 * 0 ∧
          c % dest_stride < width) := by omega
      rw [if_neg h0]
  | succ n ih =>
    intro fuel k s hf hk hev hB
    obtain ⟨fuel, rfl⟩ : ∃ f, fuel = f + 1 := ⟨fuel - 1, by omega⟩
    have hlt : s.dest_y < (y + height) - (y + height) % 2 := by omega
    have e0 : s.dest_y - y = k := by omega
    have e1 : s.dest_y + 1 - y = k + 1 := by omega
    obtain ⟨dr1, h1, c1⟩ := merge_line_at_row (offset q.r00 ((s.dest_y / 2) * src_stride))
      (offset q.r01 ((s.dest_y / 2) * src_stride)) x width s.dest_real dest_stride k hxw hws
    obtain ⟨di1, h2, c2⟩ := merge_line_at_row (offset q.i00 ((s.dest_y / 2) * src_stride))
      (offset q.i01 ((s.dest_y / 2) * src_stride)) x width s.dest_imag dest_stride k hxw hws
    obtain ⟨dr2, h3, c3⟩ := merge_line_at_row
      (offset q.r10 (((s.dest_y + 1) / 2) * src_stride))
      (offset q.r11 (((s.dest_y + 1) / 2) * src_stride)) x width dr1 dest_stride (k + 1)
      hxw hws
    obtain ⟨di2, h4, c4⟩ := merge_line_at_row
      (offset q.i10 (((s.dest_y + 1) / 2) * src_stride))
      (offset q.i11 (((s.dest_y + 1) / 2) * src_stride)) x width di1 dest_stride (k + 1)
      hxw hws
    obtain ⟨t, ht, hty, htr, hti⟩ := ih fuel (k + 2)
      { dest_real := dr2, dest_imag := di2, dest_y := s.dest_y + 1 + 1 }
      (by omega) (by simp only []; omega) (by omega) (by omega)
    refine ⟨t, ?_, by rw [hty]; simp only []; omega, ?_, ?_⟩
    · rw [get_quadrant_sample_loop, if_pos hlt]
      simp only [e0, e1, h1, h2, h3, h4, Option.some_bind]
      exact ht
    · have hne : ¬ (y + (k + 1)) % 2 = 0 := by omega
      have e2 : s.dest_y + 1 = y + (k + 1) := by omega
      exact rows_step _ _ _ _ _ _ _ dest_stride width k n c1 c3 htr
        (fun i => by rw [sample_cell, if_pos hev, hk])
        (fun i => by rw [sample_cell, if_neg hne, e2])
    · have hne : ¬ (y + (k + 1)) % 2 = 0 := by omega
      have e2 : s.dest_y + 1 = y + (k + 1) := by omega
      exact rows_step _ _ _ _ _ _ _ dest_stride width k n c2 c4 hti
        (fun i => by rw [sample_cell, if_pos hev, hk])
        (fun i => by rw [sample_cell, if_neg hne, e2])

theorem rows_join (F : Nat → Nat → α) (d0 d1 d2 : Nat → α) (ds width a b e : Nat)
    (hab : a ≤ b) (hbe : b ≤ e)
    (c1 : ∀ c, d1 c =
      if a ≤ c / ds ∧ c / ds < b ∧ c % ds < width then F (c / ds) (c % ds) else d0 c)
    (c2 : ∀ c, d2 c =
      if b ≤ c / ds ∧ c / ds < e ∧ c % ds < width then F (c / ds) (c % ds) else d1 c) :
    ∀ c, d2 c =
      if a ≤ c / ds ∧ c / ds < e ∧ c % ds < width then F (c / ds) (c % ds) else d0 c := by
  intro c
  rw [c2 c, c1 c]
  by_cases g2 : b ≤ c / ds ∧ c / ds < e ∧ c % ds < width
  · have g3 : a ≤ c / ds ∧ c / ds < e ∧ c % ds < width := by omega
    rw [if_pos g2, if_pos g3]
  · by_cases g1 : a ≤ c / ds ∧ c / ds < b ∧ c % ds < width
    · have g3 : a ≤ c / ds ∧ c / ds < e ∧ c % ds < width := by omega
      rw [if_neg g2, if_pos g1, if_pos g3]
    · have g3 : ¬ (a ≤ c / ds ∧ c / ds < e ∧ c % ds < width) := by omega
      rw [if_neg g2, if_neg g1, if_neg g3]

theorem row_as_interval (F : Nat → Nat → α) (A : Nat → α) (d0 d : Nat → α)
    (ds width m : Nat)
    (c1 : ∀ c, d c = if c / ds = m ∧ c % ds < width then A (c % ds) else d0 c)
    (hA : ∀ i, A i = F m i) :
    ∀ c, d c =
      if m ≤ c / ds ∧ c / ds < m + 1 ∧ c % ds < width then F (c / ds) (c % ds)
      else d0 c := by
  intro c
  rw [c1 c]
  by_cases g : c / ds = m ∧ c % ds < width
  · have g3 : m ≤ c / ds ∧ c / ds < m + 1 ∧ c % ds < width := by omega
    rw [if_pos g, if_pos g3, g.1, hA]
  · have g3 : ¬ (m ≤ c / ds ∧ c / ds < m + 1 ∧ c % ds < width) := by omega
    rw [if_neg g, if_neg g3]

/-- The state of `get_quadrant_sample` at its assertion, cell by cell, for
`width ≤ dest_stride`: rows `0 .. height - 1` of both planes hold the sampled values in
their first `width` cells (row 0 as well for odd `y` with `height = 0`), and every
other cell keeps its value. -/
theorem get_quadrant_sample_run_cells (q : Quadrants α)
    (src_stride dest_stride x y width height : Nat) (dest_real dest_imag : Nat → α)
    (hxw : ¬ (x % 2 = 1 ∧ width = 0)) (hws : width ≤ dest_stride) :
    ∃ t, get_quadrant_sample_run q src_stride dest_stride x y width height
        dest_real dest_imag = some t ∧
      (∀ c, t.dest_real c =
        if c / dest_stride < (if y % 2 = 1 ∧ height = 0 then 1 else height) ∧
            c % dest_stride < width then
          sample_cell q.r00 q.r01 q.r10 q.r11 src_stride x y (c / dest_stride)
            (c % dest_stride)
        else dest_real c) ∧
      (∀ c, t.dest_imag c =
        if c / dest_stride < (if y % 2 = 1 ∧ height = 0 then 1 else height) ∧
            c % dest_stride < width then
          sample_cell q.i00 q.i01 q.i10 q.i11 src_stride x y (c / dest_stride)
            (c % dest_stride)
        else dest_imag c) := by
  have tail : ∀ (s : SampleState α) (k : Nat), s.dest_y = y + k → k = y % 2 →
      ∃ t, ((get_quadrant_sample_loop q src_stride dest_stride x y width height height
          s).bind fun s2 =>
        if s2.dest_y < y + height then
          (merge_line_at (offset q.r00 ((s2.dest_y / 2) * src_stride))
              (offset q.r01 ((s2.dest_y / 2) * src_stride)) x width
              s2.dest_real ((s2.dest_y - y) * dest_stride)).bind fun dr =>
          (merge_line_at (offset q.i00 ((s2.dest_y / 2) * src_stride))
              (offset q.i01 ((s2.dest_y / 2) * src_stride)) x width
              s2.dest_imag ((s2.dest_y - y) * dest_stride)).bind fun di =>
          some { s2 with dest_real := dr, dest_imag := di }
        else some s2) = some t ∧
        (∀ c, t.dest_real c =
          if k ≤ c / dest_stride ∧ c / dest_stride < max k height ∧
              c % dest_stride < width then
            sample_cell q.r00 q.r01 q.r10 q.r11 src_stride x y (c / dest_stride)
              (c % dest_stride)
          else s.dest_real c) ∧
        (∀ c, t.dest_imag c =
          if k ≤ c / dest_stride ∧ c / dest_stride < max k height ∧
              c % dest_stride < width then
            sample_cell q.i00 q.i01 q.i10 q.i11 src_stride x y (c / dest_stride)
              (c % dest_stride)
          else s.dest_imag c) := by
    intro s k hs hk
    by_cases h0 : y % 2 = 1 ∧ height = 0
    · rw [get_quadrant_sample_loop_exit _ _ _ _ _ _ _ _ _ (by omega)]
      have hc : ¬ s.dest_y < y + height := by omega
      simp only [Option.some_bind, if_neg hc]
      refine ⟨s, rfl, ?_, ?_⟩ <;>
      · intro c
        have g : ¬ (k ≤ c / dest_stride ∧ c / dest_stride < max k height ∧
            c % dest_stride < width) := by omega
        rw [if_neg g]
    · obtain ⟨t, ht, hty, htr, hti⟩ := get_quadrant_sample_loop_cells q src_stride
        dest_stride x y width height hxw hws
        (((y + height) - (y + height) % 2 - (y + k)) / 2) height k s
        (by omega) hs (by omega) (by omega)
      rw [ht]
      simp only [Option.some_bind]
      by_cases hc : t.dest_y < y + height
      · have em : t.dest_y - y
            = k + 2 * (((y + height) - (y + height) % 2 - (y + k)) / 2) := by omega
        have hev : (y + (t.dest_y - y)) % 2 = 0 := by omega
        have ey : y + (t.dest_y - y) = t.dest_y := by omega
        have emax : max k height = t.dest_y - y + 1 := by omega
        obtain ⟨dr, h1, c1⟩ := merge_line_at_row
          (offset q.r00 ((t.dest_y / 2) * src_stride))
          (offset q.r01 ((t.dest_y / 2) * src_stride)) x width t.dest_real dest_stride
          (t.dest_y - y) hxw hws
        obtain ⟨di, h2, c2⟩ := merge_line_at_row
          (offset q.i00 ((t.dest_y / 2) * src_stride))
          (offset q.i01 ((t.dest_y / 2) * src_stride)) x width t.dest_imag dest_stride
          (t.dest_y - y) hxw hws
        simp only [if_pos hc, h1, h2, Option.some_bind]
        rw [← em] at htr hti
        rw [emax]
        refine ⟨_, rfl, ?_, ?_⟩
        · exact rows_join _ _ _ _ dest_stride width k (t.dest_y - y) (t.dest_y - y + 1)
            (by omega) (by omega) htr
            (row_as_interval _ _ _ _ dest_stride width (t.dest_y - y) c1
              (fun i => by rw [sample_cell, if_pos hev, ey]))
        · exact rows_join _ _ _ _ dest_stride width k (t.dest_y - y) (t.dest_y - y + 1)
            (by omega) (by omega) hti
            (row_as_interval _ _ _ _ dest_stride width (t.dest_y - y) c2
              (fun i => by rw [sample_cell, if_pos hev, ey]))
      · have emax : max k height
            = k + 2 * (((y + height) - (y + height) % 2 - (y + k)) / 2) := by omega
        simp only [if_neg hc]
        rw [emax]
        exact ⟨t, rfl, htr, hti⟩
  by_cases hy : y % 2 = 1
  · have hodd : ¬ (y + 0) % 2 = 0 := by omega
    obtain ⟨dr, h1, c1⟩ := merge_line_at_row (offset q.r10 ((y / 2) * src_stride))
      (offset q.r11 ((y / 2) * src_stride)) x width dest_real dest_stride 0 hxw hws
    obtain ⟨di, h2, c2⟩ := merge_line_at_row (offset q.i10 ((y / 2) * src_stride))
      (offset q.i11 ((y / 2) * src_stride)) x width dest_imag dest_stride 0 hxw hws
    rw [Nat.zero_mul] at h1 h2
    obtain ⟨t, ht, htr, hti⟩ := tail
      { dest_real := dr, dest_imag := di, dest_y := y + 1 } 1 rfl (by omega)
    have erows : (if y % 2 = 1 ∧ height = 0 then 1 else height) = max 1 height := by
      split_ifs <;> omega
    simp only [get_quadrant_sample_run, if_pos hy, h1, h2, Option.some_bind]
    refine ⟨t, ht, ?_, ?_⟩
    · intro c
      have := rows_join _ _ _ _ dest_stride width 0 (0 + 1) (max 1 height)
        (by omega) (by omega)
        (row_as_interval (sample_cell q.r00 q.r01 q.r10 q.r11 src_stride x y) _ _ _
          dest_stride width 0 c1 (fun i => by rw [sample_cell, if_neg hodd]; rfl))
        htr c
      rw [this, erows]
      simp only [Nat.zero_le, true_and]
    · intro c
      have := rows_join _ _ _ _ dest_stride width 0 (0 + 1) (max 1 height)
        (by omega) (by omega)
        (row_as_interval (sample_cell q.i00 q.i01 q.i10 q.i11 src_stride x y) _ _ _
          dest_stride width 0 c2 (fun i => by rw [sample_cell, if_neg hodd]; rfl))
        hti c
      rw [this, erows]
      simp only [Nat.zero_le, true_and]
  · obtain ⟨t, ht, htr, hti⟩ := tail
      { dest_real := dest_real, dest_imag := dest_imag, dest_y := y } 0 rfl (by omega)
    have erows : (if y % 2 = 1 ∧ height = 0 then 1 else height) = max 0 height := by
      split_ifs <;> omega
    simp only [get_quadrant_sample_run, if_neg hy, Option.some_bind]
    refine ⟨t, ht, ?_, ?_⟩
    · intro c
      rw [htr c, erows]
      simp only [Nat.zero_le, true_and]
    · intro c
      rw [hti c, erows]
      simp only [Nat.zero_le, true_and]

/-- For an even `x` and `width ≤ dest_stride`, `get_quadrant_sample` leaves in row `j`,
column `i` of the region the cell of global row `y + j` and global column `x + i` of
the contiguous matrix. -/
theorem get_quadrant_sample_run_even_x (q : Quadrants α)
    (src_stride dest_stride x y width height : Nat) (dest_real dest_imag : Nat → α)
    (hx : x % 2 = 0) (hws : width ≤ dest_stride) (j i : Nat) (hj : j < height)
    (hi : i < width) :
    ∃ t, get_quadrant_sample_run q src_stride dest_stride x y width height
        dest_real dest_imag = some t ∧
      t.dest_real (j * dest_stride + i) =
        (if (y + j) % 2 = 0 then (if (x + i) % 2 = 0 then q.r00 else q.r01)
          else (if (x + i) % 2 = 0 then q.r10 else q.r11))
          (((y + j) / 2) * src_stride + (x + i) / 2) ∧
      t.dest_imag (j * dest_stride + i) =
        (if (y + j) % 2 = 0 then (if (x + i) % 2 = 0 then q.i00 else q.i01)
          else (if (x + i) % 2 = 0 then q.i10 else q.i11))
          (((y + j) / 2) * src_stride + (x + i) / 2) := by
  obtain ⟨t, ht, htr, hti⟩ := get_quadrant_sample_run_cells q src_stride dest_stride x y
    width height dest_real dest_imag (by omega) hws
  obtain ⟨hdiv, hmod⟩ := (mem_row_iff dest_stride width j (j * dest_stride + i) hws).mp
    ⟨by omega, by omega⟩
  have hmod2 : (j * dest_stride + i) % dest_stride = i := by
    rw [← sub_row_start dest_stride j (j * dest_stride + i) hdiv]
    omega
  have hrows : j < (if y % 2 = 1 ∧ height = 0 then 1 else height) := by
    split_ifs <;> omega
  have hidx : x / 2 + i / 2 = (x + i) / 2 := by omega
  refine ⟨t, ht, ?_, ?_⟩
  · rw [htr, hdiv, hmod2, if_pos ⟨hrows, hi⟩]
    simp only [sample_cell, merge_line_cell, offset, Nat.add_assoc, hidx]
    split_ifs <;> rfl
  · rw [hti, hdiv, hmod2, if_pos ⟨hrows, hi⟩]
    simp only [sample_cell, merge_line_cell, offset, Nat.add_assoc, hidx]
    split_ifs <;> rfl

/-! ### The quadrant sampler as a sequence of row writes -/

theorem merge_line_at_eq_write_row (evens odds : Nat → α) (x width : Nat) (dest : Nat → α)
    (ds k : Nat) (h : ¬ (x % 2 = 1 ∧ width = 0)) :
    merge_line_at evens odds x width dest (k * ds)
      = some (write_row (merge_line_cell evens odds x) ds width k dest) := by
  obtain ⟨d, hd, hcell⟩ := merge_line_at_spec evens odds x width dest (k * ds) h
  rw [hd]
  congr 1
  funext c
  rw [hcell c, write_row]

theorem merge_line_at_abort (evens odds : Nat → α) (x : Nat) (dest : Nat → α) (k : Nat)
    (hx : x % 2 = 1) : merge_line_at evens odds x 0 dest k = none := by
  simp [merge_line_at, merge_line_abort evens odds x (offset dest k) hx]

theorem sample_cell_even (p00 p01 p10 p11 : Nat → α) (src_stride x y j : Nat)
    (h : (y + j) % 2 = 0) :
    merge_line_cell (offset p00 (((y + j) / 2) * src_stride))
        (offset p01 (((y + j) / 2) * src_stride)) x
      = sample_cell p00 p01 p10 p11 src_stride x y j := by
  funext i
  rw [sample_cell, if_pos h]

theorem sample_cell_odd (p00 p01 p10 p11 : Nat → α) (src_stride x y j : Nat)
    (h : (y + j) % 2 = 1) :
    merge_line_cell (offset p10 (((y + j) / 2) * src_stride))
        (offset p11 (((y + j) / 2) * src_stride)) x
      = sample_cell p00 p01 p10 p11 src_stride x y j := by
  funext i
  rw [sample_cell, if_neg (by omega)]

theorem write_rows_snoc (F : Nat → Nat → α) (ds width : Nat) (n : Nat) :
    ∀ (k : Nat) (d : Nat → α),
      write_rows F ds width k (n + 1) d
        = write_row (F (k + n)) ds width (k + n) (write_rows F ds width k n d) := by
  induction n with
  | zero => intro k d; rfl
  | succ n ih =>
    intro k d
    have e : k + (n + 1) = k + 1 + n := by omega
    rw [write_rows, ih (k + 1), e]
    rfl

theorem write_rows_two (F : Nat → Nat → α) (ds width k n : Nat) (d : Nat → α) :
    write_rows F ds width k (2 * (n + 1)) d
      = write_rows F ds width (k + 2) (2 * n)
          (write_row (F (k + 1)) ds width (k + 1) (write_row (F k) ds width k d)) :=
  rfl

/-- The loop of `get_quadrant_sample` started at row `k` (an even global row) with `n`
pairs of rows left writes the rows `k .. k + 2 * n - 1` of both planes, one after the
other. -/
theorem get_quadrant_sample_loop_rows (q : Quadrants α)
    (src_stride dest_stride x y width height : Nat) (hxw : ¬ (x % 2 = 1 ∧ width = 0))
    (n : Nat) :
    ∀ (fuel k : Nat) (s : SampleState α), n ≤ fuel → s.dest_y = y + k → (y + k) % 2 = 0 →
      y + k + 2 * n = (y + height) - (y + height) % 2 →
      get_quadrant_sample_loop q src_stride dest_stride x y width height fuel s = some
        { dest_real := write_rows (sample_cell q.r00 q.r01 q.r10 q.r11 src_stride x y)
            dest_stride width k (2 * n) s.dest_real,
          dest_imag := write_rows (sample_cell q.i00 q.i01 q.i10 q.i11 src_stride x y)
            dest_stride width k (2 * n) s.dest_imag,
          dest_y := s.dest_y + 2 * n } := by
  induction n with
  | zero =>
    intro fuel k s _ hk _ hB
    rw [get_quadrant_sample_loop_exit q src_stride dest_stride x y width height fuel s
      (by omega)]
    cases s
    rfl
  | succ n ih =>
    intro fuel k s hf hk hev hB
    obtain ⟨fuel, rfl⟩ : ∃ f, fuel = f + 1 := ⟨fuel - 1, by omega⟩
    have hlt : s.dest_y < (y + height) - (y + height) % 2 := by omega
    have e0 : s.dest_y - y = k := by omega
    have e1 : s.dest_y + 1 - y = k + 1 := by omega
    have e2 : s.dest_y + 1 = y + (k + 1) := by omega
    have hodd : (y + (k + 1)) % 2 = 1 := by omega
    rw [get_quadrant_sample_loop, if_pos hlt]
    simp only [e0, e1, merge_line_at_eq_write_row _ _ _ _ _ _ _ hxw, Option.some_bind]
    rw [ih fuel (k + 2) _ (by omega) (by simp only []; omega) (by omega) (by omega)]
    simp only [e2]
    rw [hk, sample_cell_even q.r00 q.r01 q.r10 q.r11 src_stride x y k hev,
      sample_cell_even q.i00 q.i01 q.i10 q.i11 src_stride x y k hev,
      sample_cell_odd q.r00 q.r01 q.r10 q.r11 src_stride x y (k + 1) hodd,
      sample_cell_odd q.i00 q.i01 q.i10 q.i11 src_stride x y (k + 1) hodd]
    simp only [write_rows_two, Option.some.injEq, SampleState.mk.injEq, true_and]
    omega

/-- What `get_quadrant_sample` computes, for all strides: unless `x` is odd and
`width = 0`, it reaches its assertion having written the rows `0 .. height - 1` of both
planes one after the other (row 0 alone for odd `y` with `height = 0`), row `j` holding
the merged line of the global row `y + j`; `dest_y` is then `y + height` rounded down
to an even number, or `y + 1` for odd `y` with `height = 0`. -/
theorem get_quadrant_sample_run_rows (q : Quadrants α)
    (src_stride dest_stride x y width height : Nat) (dest_real dest_imag : Nat → α)
    (hxw : ¬ (x % 2 = 1 ∧ width = 0)) :
    get_quadrant_sample_run q src_stride dest_stride x y width height dest_real dest_imag
      = some
        { dest_real := write_rows (sample_cell q.r00 q.r01 q.r10 q.r11 src_stride x y)
            dest_stride width 0 (max (y % 2) height) dest_real,
          dest_imag := write_rows (sample_cell q.i00 q.i01 q.i10 q.i11 src_stride x y)
            dest_stride width 0 (max (y % 2) height) dest_imag,
          dest_y := if y % 2 = 1 ∧ height = 0 then y + 1
            else (y + height) - (y + height) % 2 } := by
  have tail : ∀ (s : SampleState α) (k : Nat), s.dest_y = y + k → k = y % 2 →
      ((get_quadrant_sample_loop q src_stride dest_stride x y width height height
          s).bind fun s2 =>
        if s2.dest_y < y + height then
          (merge_line_at (offset q.r00 ((s2.dest_y / 2) * src_stride))
              (offset q.r01 ((s2.dest_y / 2) * src_stride)) x width
              s2.dest_real ((s2.dest_y - y) * dest_stride)).bind fun dr =>
          (merge_line_at (offset q.i00 ((s2.dest_y / 2) * src_stride))
              (offset q.i01 ((s2.dest_y / 2) * src_stride)) x width
              s2.dest_imag ((s2.dest_y - y) * dest_stride)).bind fun di =>
          some { s2 with dest_real := dr, dest_imag := di }
        else some s2) = some
        { dest_real := write_rows (sample_cell q.r00 q.r01 q.r10 q.r11 src_stride x y)
            dest_stride width k (height - k) s.dest_real,
          dest_imag := write_rows (sample_cell q.i00 q.i01 q.i10 q.i11 src_stride x y)
            dest_stride width k (height - k) s.dest_imag,
          dest_y := if y % 2 = 1 ∧ height = 0 then y + 1
            else (y + height) - (y + height) % 2 } := by
    intro s k hs hk
    by_cases h0 : y % 2 = 1 ∧ height = 0
    · rw [get_quadrant_sample_loop_exit _ _ _ _ _ _ _ _ _ (by omega)]
      have hc : ¬ s.dest_y < y + height := by omega
      have e : height - k = 0 := by omega
      have ey : s.dest_y = y + 1 := by omega
      simp only [Option.some_bind, if_neg hc, if_pos h0, e, write_rows, ← ey]
    · have hn : y + k + 2 * (((y + height) - (y + height) % 2 - (y + k)) / 2)
          = (y + height) - (y + height) % 2 := by omega
      rw [get_quadrant_sample_loop_rows q src_stride dest_stride x y width height hxw
        (((y + height) - (y + height) % 2 - (y + k)) / 2) height k s (by omega) hs
        (by omega) hn]
      simp only [Option.some_bind, if_neg h0]
      by_cases hc : s.dest_y + 2 * (((y + height) - (y + height) % 2 - (y + k)) / 2)
          < y + height
      · have em : s.dest_y + 2 * (((y + height) - (y + height) % 2 - (y + k)) / 2) - y
            = k + 2 * (((y + height) - (y + height) % 2 - (y + k)) / 2) := by omega
        have ey : s.dest_y + 2 * (((y + height) - (y + height) % 2 - (y + k)) / 2)
            = y + (k + 2 * (((y + height) - (y + height) % 2 - (y + k)) / 2)) := by omega
        have hev : (y + (k + 2 * (((y + height) - (y + height) % 2 - (y + k)) / 2))) % 2
            = 0 := by omega
        have eh : height - k
            = 2 * (((y + height) - (y + height) % 2 - (y + k)) / 2) + 1 := by omega
        simp only [if_pos hc, em, merge_line_at_eq_write_row _ _ _ _ _ _ _ hxw,
          Option.some_bind]
        rw [ey, sample_cell_even q.r00 q.r01 q.r10 q.r11 src_stride x y _ hev,
          sample_cell_even q.i00 q.i01 q.i10 q.i11 src_stride x y _ hev, eh,
          write_rows_snoc, write_rows_snoc]
        simp only [Option.some.injEq, SampleState.mk.injEq, true_and]
        omega
      · have eh : height - k
            = 2 * (((y + height) - (y + height) % 2 - (y + k)) / 2) := by omega
        simp only [if_neg hc, eh, Option.some.injEq, SampleState.mk.injEq, true_and]
        omega
  by_cases hy : y % 2 = 1
  · have h1 := merge_line_at_eq_write_row (offset q.r10 ((y / 2) * src_stride))
      (offset q.r11 ((y / 2) * src_stride)) x width dest_real dest_stride 0 hxw
    have h2 := merge_line_at_eq_write_row (offset q.i10 ((y / 2) * src_stride))
      (offset q.i11 ((y / 2) * src_stride)) x width dest_imag dest_stride 0 hxw
    have g1 := sample_cell_odd q.r00 q.r01 q.r10 q.r11 src_stride x y 0 (by omega)
    have g2 := sample_cell_odd q.i00 q.i01 q.i10 q.i11 src_stride x y 0 (by omega)
    rw [Nat.zero_mul] at h1 h2
    rw [Nat.add_zero] at g1 g2
    rw [g1] at h1
    rw [g2] at h2
    have e : max (y % 2) height = (height - 1) + 1 := by omega
    simp only [get_quadrant_sample_run, if_pos hy, h1, h2, Option.some_bind]
    rw [tail _ 1 rfl (by omega), e]
    rfl
  · have e : max (y % 2) height = height := by omega
    simp only [get_quadrant_sample_run, if_neg hy, Option.some_bind]
    rw [tail _ 0 rfl (by omega), e]
    rfl

theorem write_rows_below (F : Nat → Nat → α) (ds width : Nat) (n : Nat) :
    ∀ (k : Nat) (d : Nat → α) (c : Nat), c < k * ds →
      write_rows F ds width k n d c = d c := by
  induction n with
  | zero => intro k d c _; rfl
  | succ n ih =>
    intro k d c hc
    have h1 : (k + 1) * ds = k * ds + ds := Nat.succ_mul k ds
    rw [write_rows, ih (k + 1) _ c (by omega), write_row, if_neg (by omega)]

/-- After the rows `k .. k + n - 1` have been written one after the other, row `j` holds
`F j i` in its cell `i < width`, unless the next row has overwritten that cell: the cells
`i < ds` are safe, and so is the whole last row. -/
theorem write_rows_cell (F : Nat → Nat → α) (ds width : Nat) (n : Nat) :
    ∀ (k : Nat) (d : Nat → α) (j i : Nat), k ≤ j → j < k + n → i < width →
      (i < ds ∨ j + 1 = k + n) →
      write_rows F ds width k n d (j * ds + i) = F j i := by
  induction n with
  | zero => intro k d j i h1 h2; omega
  | succ n ih =>
    intro k d j i h1 h2 hi hov
    rw [write_rows]
    by_cases hj : j = k
    · subst hj
      have e : j * ds + i - j * ds = i := by omega
      rcases Nat.eq_zero_or_pos n with hn | hn
      · subst hn
        rw [write_rows, write_row, if_pos (by omega), e]
      · have hids : i < ds := by omega
        have h3 : (j + 1) * ds = j * ds + ds := Nat.succ_mul j ds
        rw [write_rows_below F ds width n (j + 1) _ _ (by omega), write_row,
          if_pos (by omega), e]
    · exact ih (k + 1) _ j i (by omega) (by omega) hi (by omega)

theorem write_rows_map {β : Type} (h : β → α) (F : Nat → Nat → β) (ds width : Nat)
    (n : Nat) :
    ∀ (k : Nat) (d : Nat → β),
      write_rows (fun j i => h (F j i)) ds width k n (fun c => h (d c))
        = fun c => h (write_rows F ds width k n d c) := by
  induction n with
  | zero => intro k d; rfl
  | succ n ih =>
    intro k d
    have e : write_row (fun i => h (F k i)) ds width k (fun c => h (d c))
        = fun c => h (write_row (F k) ds width k d c) := by
      funext c
      simp only [write_row]
      split_ifs <;> rfl
    rw [write_rows, e, ih (k + 1), write_rows]

theorem sample_cell_map {β : Type} (h : β → α) (p00 p01 p10 p11 : Nat → β)
    (src_stride x y j i : Nat) :
    sample_cell (fun k => h (p00 k)) (fun k => h (p01 k)) (fun k => h (p10 k))
        (fun k => h (p11 k)) src_stride x y j i
      = h (sample_cell p00 p01 p10 p11 src_stride x y j i) := by
  simp only [sample_cell, merge_line_cell, offset]
  split_ifs <;> rfl

/-- For odd `x` and `width = 0` every call of `merge_line` aborts, so
`get_quadrant_sample` aborts as soon as it has a row to write. -/
theorem get_quadrant_sample_run_abort (q : Quadrants α)
    (src_stride dest_stride x y height : Nat) (dest_real dest_imag : Nat → α)
    (hx : x % 2 = 1) (hrow : y % 2 = 1 ∨ 1 ≤ height) :
    get_quadrant_sample_run q src_stride dest_stride x y 0 height dest_real dest_imag
      = none := by
  by_cases hy : y % 2 = 1
  · simp [get_quadrant_sample_run, if_pos hy, merge_line_at_abort _ _ _ _ _ hx]
  · have hh : 1 ≤ height := by omega
    simp only [get_quadrant_sample_run, if_neg hy, Option.some_bind]
    by_cases hc : y < (y + height) - (y + height) % 2
    · obtain ⟨f, hf⟩ : ∃ f, height = f + 1 := ⟨height - 1, by omega⟩
      have hl : get_quadrant_sample_loop q src_stride dest_stride x y 0 height height
          { dest_real := dest_real, dest_imag := dest_imag, dest_y := y } = none := by
        conv_lhs => rw [hf]
        rw [get_quadrant_sample_loop]
        simp [hf ▸ hc, merge_line_at_abort _ _ _ _ _ hx]
      rw [hl]
      rfl
    · rw [get_quadrant_sample_loop_exit _ _ _ _ _ _ _ _ _ hc]
      have hlt : y < y + height := by omega
      simp [hlt, merge_line_at_abort _ _ _ _ _ hx]

/-- Without any row to write (even `y`, `height = 0`) `get_quadrant_sample` reaches its
assertion with both planes untouched. -/
theorem get_quadrant_sample_run_empty (q : Quadrants α)
    (src_stride dest_stride x y width : Nat) (dest_real dest_imag : Nat → α)
    (hy : y % 2 = 0) :
    get_quadrant_sample_run q src_stride dest_stride x y width 0 dest_real dest_imag
      = some { dest_real := dest_real, dest_imag := dest_imag, dest_y := y } := by
  have hc : ¬ y < (y + 0) - (y + 0) % 2 := by omega
  simp only [get_quadrant_sample_run, if_neg (show ¬ y % 2 = 1 by omega), Option.some_bind]
  rw [get_quadrant_sample_loop_exit _ _ _ _ _ _ _ _ _ hc]
  simp

/-- The planes `get_quadrant_sample` leaves at its assertion, for all inputs: either
the function aborts in a call of `merge_line` (odd `x`, `width = 0` and a row to
write), or the rows `0 .. max (y % 2) height - 1` of each plane have been written one
after the other from the quadrants of that plane. -/
theorem get_quadrant_sample_run_planes (q : Quadrants α)
    (src_stride dest_stride x y width height : Nat) (dest_real dest_imag : Nat → α) :
    (get_quadrant_sample_run q src_stride dest_stride x y width height
        dest_real dest_imag).map (fun t => (t.dest_real, t.dest_imag))
      = if x % 2 = 1 ∧ width = 0 ∧ (y % 2 = 1 ∨ 1 ≤ height) then none
        else some
          (write_rows (sample_cell q.r00 q.r01 q.r10 q.r11 src_stride x y)
            dest_stride width 0 (max (y % 2) height) dest_real,
           write_rows (sample_cell q.i00 q.i01 q.i10 q.i11 src_stride x y)
            dest_stride width 0 (max (y % 2) height) dest_imag) := by
  by_cases hab : x % 2 = 1 ∧ width = 0 ∧ (y % 2 = 1 ∨ 1 ≤ height)
  · obtain ⟨hx, hw, hrow⟩ := hab
    subst hw
    rw [get_quadrant_sample_run_abort q src_stride dest_stride x y height dest_real
      dest_imag hx hrow, if_pos ⟨hx, rfl, hrow⟩]
    rfl
  · rw [if_neg hab]
    by_cases hxw : x % 2 = 1 ∧ width = 0
    · have hy : y % 2 = 0 := by omega
      have hh : height = 0 := by omega
      have e : max (y % 2) height = 0 := by omega
      subst hh
      rw [get_quadrant_sample_run_empty q src_stride dest_stride x y width dest_real
        dest_imag hy, e]
      rfl
    · rw [get_quadrant_sample_run_rows q src_stride dest_stride x y width height
        dest_real dest_imag hxw]
      rfl

theorem read_source_rows (p00 p01 p10 p11 d : Nat → α)
    (src_stride dest_stride x y width n : Nat) :
    write_rows (sample_cell p00 p01 p10 p11 src_stride x y) dest_stride width 0 n d
      = fun c => read_source p00 p01 p10 p11 d
          (write_rows
            (sample_cell (fun k => (Sum.inr (0, k) : SourceCell)) (fun k => Sum.inr (1, k))
              (fun k => Sum.inr (2, k)) (fun k => Sum.inr (3, k)) src_stride x y)
            dest_stride width 0 n (fun c => Sum.inl c) c) := by
  have e1 : (fun j i => read_source p00 p01 p10 p11 d
      (sample_cell (fun k => (Sum.inr (0, k) : SourceCell)) (fun k => Sum.inr (1, k))
        (fun k => Sum.inr (2, k)) (fun k => Sum.inr (3, k)) src_stride x y j i))
      = sample_cell p00 p01 p10 p11 src_stride x y := by
    funext j i
    rw [← sample_cell_map (read_source p00 p01 p10 p11 d)]
    rfl
  rw [← write_rows_map (read_source p00 p01 p10 p11 d), e1]
  rfl

/-! ### The two-dimensional copy -/

theorem write_rows_frame (F : Nat → Nat → α) (ds width : Nat) (n : Nat) :
    ∀ (k : Nat) (d : Nat → α) (c : Nat),
      (∀ j i, k ≤ j → j < k + n → i < width → c ≠ j * ds + i) →
      write_rows F ds width k n d c = d c := by
  induction n with
  | zero => intro k d c _; rfl
  | succ n ih =>
    intro k d c hc
    rw [write_rows, ih (k + 1) _ c (fun j i h1 h2 h3 => hc j i (by omega) (by omega) h3),
      write_row]
    by_cases hin : k * ds ≤ c ∧ c < k * ds + width
    · exact absurd (show c = k * ds + (c - k * ds) by omega)
        (hc k (c - k * ds) (by omega) (by omega) (by omega))
    · rw [if_neg hin]

/-- The inner loop of `memcpy2D` started at column `j` with `n` columns left ends, having
copied the cells `j .. width - 1` of row `i`. -/
theorem memcpy2D_inner_spec (s : Nat → α) (dstride sstride width i : Nat) (n : Nat) :
    ∀ (fuel j : Nat) (d : Nat → α), n ≤ fuel → j + n = width →
      memcpy2D_inner s dstride sstride width i fuel j d = some fun c =>
        if i * dstride + j ≤ c ∧ c < i * dstride + width then
          s (i * sstride + (c - i * dstride))
        else d c := by
  induction n with
  | zero =>
    intro fuel j d _ hj
    have hc : ¬ j < width := by omega
    have e : memcpy2D_inner s dstride sstride width i fuel j d = some d := by
      cases fuel <;> simp [memcpy2D_inner, hc]
    rw [e]
    congr 1
    funext c
    rw [if_neg (by omega)]
  | succ n ih =>
    intro fuel j d hf hj
    obtain ⟨fuel, rfl⟩ : ∃ f, fuel = f + 1 := ⟨fuel - 1, by omega⟩
    have hc : j < width := by omega
    rw [memcpy2D_inner, if_pos hc, ih fuel (j + 1) _ (by omega) (by omega)]
    congr 1
    funext c
    by_cases h1 : c = i * dstride + j
    · subst h1
      have e : i * dstride + j - i * dstride = j := by omega
      rw [if_neg (by omega), Function.update_same, if_pos (by omega), e]
    · rw [Function.update_noteq h1]
      by_cases h2 : i * dstride + (j + 1) ≤ c ∧ c < i * dstride + width
      · rw [if_pos h2, if_pos (by omega)]
      · rw [if_neg h2, if_neg (by omega)]

theorem memcpy2D_inner_eq_write_row (s : Nat → α) (dstride sstride width i : Nat)
    (d : Nat → α) :
    memcpy2D_inner s dstride sstride width i width 0 d
      = some (write_row (fun j => s (i * sstride + j)) dstride width i d) := by
  rw [memcpy2D_inner_spec s dstride sstride width i width width 0 d (by omega) (by omega)]
  rfl

/-- The outer loop of `memcpy2D` started at row `i` with `n` rows left ends, having
written the rows `i .. height - 1` one after the other. -/
theorem memcpy2D_outer_spec (s : Nat → α) (dstride sstride width height : Nat) (n : Nat) :
    ∀ (fuel i : Nat) (d : Nat → α), n ≤ fuel → i + n = height →
      memcpy2D_outer s dstride sstride width height fuel i d
        = some (write_rows (fun r j => s (r * sstride + j)) dstride width i n d) := by
  induction n with
  | zero =>
    intro fuel i d _ hi
    have hc : ¬ i < height := by omega
    cases fuel <;> simp [memcpy2D_outer, hc, write_rows]
  | succ n ih =>
    intro fuel i d hf hi
    obtain ⟨fuel, rfl⟩ : ∃ f, fuel = f + 1 := ⟨fuel - 1, by omega⟩
    have hc : i < height := by omega
    rw [memcpy2D_outer, if_pos hc, memcpy2D_inner_eq_write_row, Option.some_bind,
      ih fuel (i + 1) _ (by omega) (by omega), write_rows]

/-- What `memcpy2D` computes, for all strides: it returns, having written the rows
`0 .. height - 1` one after the other, row `i` with the first `width` cells of the source
row `i`. -/
theorem memcpy2D_eq_write_rows (dst : Nat → α) (dstride : Nat) (src : Nat → α)
    (sstride width height : Nat) :
    memcpy2D dst dstride src sstride width height
      = some (write_rows (fun r j => src (r * sstride + j)) dstride width 0 height dst) :=
  memcpy2D_outer_spec src dstride sstride width height height height 0 dst (by omega)
    (by omega)

end ReshaperLemmas

/-! ### Claims about the buffer reshaper -/

/-- C1 (failing input): `get_quadrant_sample` with `x = 1`, `y = 0`, `width = 2`,
`height = 2` and both strides 2 returns, but leaves in row 0, column 1 (global row 0,
global column 2, both even) the cell 0 of `r00` and of `i00`, where the contiguous
matrix has the cell `(0 / 2) * 2 + 2 / 2 = 1` of `r00` and of `i00`. -/
theorem get_quadrant_sample_odd_x_cell :
    (get_quadrant_sample test_quadrants 2 2 1 0 2 2 test_dest test_dest).map
        (fun p => (p.dest_real (0 * 2 + 1), p.dest_imag (0 * 2 + 1)))
      = some (test_quadrants.r00 0, test_quadrants.i00 0) ∧
    test_quadrants.r00 0 ≠ test_quadrants.r00 (((0 + 0) / 2) * 2 + (1 + 1) / 2) ∧
    test_quadrants.i00 0 ≠ test_quadrants.i00 (((0 + 0) / 2) * 2 + (1 + 1) / 2) := by
  decide

/-- C2 (failing input): `merge_line` with `x = 1` and `width = 2` returns with
`dest[0] = odds[0]` and `dest[1] = evens[0]`, although position 1 is the global column
2, whose value is `evens[(1 + 1) / 2] = evens[1]`. -/
theorem merge_line_odd_x_cell :
    (merge_line test_evens test_odds 1 2 test_dest).map (fun d => (d 0, d 1))
      = some (test_odds 0, test_evens 0) ∧
    test_evens 0 ≠ test_evens ((1 + 1) / 2) := by
  decide

/-- C9 (failing input): `merge_line` with `x = 1` and `width = 0` reaches its assertion
having written `dest[0] = odds[0]` and with `dest_x = 2`, so the assertion
`dest_x == x + width` fails. -/
theorem merge_line_odd_x_zero_width :
    (merge_line_run test_evens test_odds 1 0 test_dest).map (fun s => (s.dest 0, s.dest_x))
      = some (test_odds 0, 2) ∧
    test_dest 0 ≠ test_odds 0 ∧
    (merge_line test_evens test_odds 1 0 test_dest).isSome = false := by
  decide

/-- C10: the packed variants compute what the in-place ones compute. For all inputs
`get_quadrant_sample_to_buffer` and `get_quadrant_sample` have the same outcome, and
so have `merge_line_to_buffer` and `merge_line`; for every `j < height` and
`i < width` both samplers reach their assertion, and there the cells
`dest_real[j * dest_stride + i]` and `dest_imag[j * dest_stride + i]` of the packed
sampler hold the values of the same cells of the in-place sampler; both line mergers
return, and cell `i` of the packed one holds the value of cell `i` of the in-place
one. -/
theorem to_buffer_same_cells {α : Type} (q : Quadrants α)
    (src_stride dest_stride x y width height : Nat) (dest_real dest_imag : Nat → α)
    (evens odds dest : Nat → α) (j i : Nat) (_hj : j < height) (hi : i < width) :
    get_quadrant_sample_to_buffer q src_stride dest_stride x y width height
        dest_real dest_imag
      = get_quadrant_sample q src_stride dest_stride x y width height dest_real dest_imag ∧
    merge_line_to_buffer evens odds x width dest = merge_line evens odds x width dest ∧
    (∃ a b,
      get_quadrant_sample_to_buffer_run q src_stride dest_stride x y width height
          dest_real dest_imag = some a ∧
      get_quadrant_sample_run q src_stride dest_stride x y width height
          dest_real dest_imag = some b ∧
      a.dest_real (j * dest_stride + i) = b.dest_real (j * dest_stride + i) ∧
      a.dest_imag (j * dest_stride + i) = b.dest_imag (j * dest_stride + i) ∧
      a.dest_y = b.dest_y) ∧
    (∃ c d,
      merge_line_to_buffer evens odds x width dest = some c ∧
      merge_line evens odds x width dest = some d ∧ c i = d i) := by
  have hxw : ¬ (x % 2 = 1 ∧ width = 0) := by omega
  refine ⟨get_quadrant_sample_to_buffer_eq q src_stride dest_stride x y width height
    dest_real dest_imag, merge_line_to_buffer_eq evens odds x width dest, ?_, ?_⟩
  · obtain ⟨b, hb, _⟩ := get_quadrant_sample_run_total q src_stride dest_stride x y width
      height dest_real dest_imag hxw
    have hsim := get_quadrant_sample_to_buffer_run_sim q src_stride dest_stride x y width
      height dest_real dest_imag
    rw [hb] at hsim
    cases ha : get_quadrant_sample_to_buffer_run q src_stride dest_stride x y width height
      dest_real dest_imag with
    | none =>
      rw [ha] at hsim
      exact absurd hsim (by simp)
    | some a =>
      rw [ha] at hsim
      simp only [Option.map_some', Option.some.injEq] at hsim
      subst hsim
      exact ⟨a, _, rfl, hb, rfl, rfl, rfl⟩
  · obtain ⟨d, hd, _⟩ := merge_line_spec evens odds x width dest hxw
    exact ⟨d, d, by rw [merge_line_to_buffer_eq, hd], hd, rfl⟩

theorem to_buffer_same_cells_witness :
    get_quadrant_sample_to_buffer test_quadrants 2 4 1 1 3 2 test_dest test_dest
      = get_quadrant_sample test_quadrants 2 4 1 1 3 2 test_dest test_dest ∧
    merge_line_to_buffer test_evens test_odds 1 3 test_dest
      = merge_line test_evens test_odds 1 3 test_dest ∧
    (∃ a b,
      get_quadrant_sample_to_buffer_run test_quadrants 2 4 1 1 3 2 test_dest test_dest
        = some a ∧
      get_quadrant_sample_run test_quadrants 2 4 1 1 3 2 test_dest test_dest = some b ∧
      a.dest_real (1 * 4 + 2) = b.dest_real (1 * 4 + 2) ∧
      a.dest_imag (1 * 4 + 2) = b.dest_imag (1 * 4 + 2) ∧
      a.dest_y = b.dest_y) ∧
    (∃ c d,
      merge_line_to_buffer test_evens test_odds 1 3 test_dest = some c ∧
      merge_line test_evens test_odds 1 3 test_dest = some d ∧ c 2 = d 2) :=
  to_buffer_same_cells test_quadrants 2 4 1 1 3 2 test_dest test_dest
    test_evens test_odds test_dest 1 2 (by decide) (by decide)


/-- C11 (counterexample): `get_quadrant_sample` with `x = 0`, `y = 2`, `width = 1`,
`height = 2` and both strides 2 returns with the merged line of the global row 2 (cell
`(2 / 2) * 2 = 2` of `r00`) in `dest_real[0 * 2]`, while `dest_real[2 * 2]`, where the
destination row 2 starts, still holds its initial value. -/
theorem get_quadrant_sample_row_offset_counterexample :
    (get_quadrant_sample test_quadrants 2 2 0 2 1 2 test_dest test_dest).map
        (fun p => (p.dest_real (0 * 2), p.dest_real (2 * 2)))
      = some (test_quadrants.r00 2, test_dest (2 * 2)) ∧
    test_dest (2 * 2) ≠ test_quadrants.r00 2 := by
  decide

/-- C11 (amended): `get_quadrant_sample` writes re-based to row 0 of the destination.
For every `y`, `height` and every global row `r` with `y ≤ r < y + height`, the function
reaches its assertion, and there the merged line of row `r` (the result of `merge_line`
on the quadrant pair of that row) stands at destination row `r - y`, from
`dest_real[(r - y) * dest_stride]` and `dest_imag[(r - y) * dest_stride]` on: each cell
`i < width` of the line is there, unless the next row has overwritten it, which cannot
happen for `i < dest_stride` nor for the last row. -/
theorem get_quadrant_sample_rows_rebased {α : Type} (q : Quadrants α)
    (src_stride dest_stride x y width height : Nat) (dest_real dest_imag d0 : Nat → α)
    (r i : Nat) (hr1 : y ≤ r) (hr2 : r < y + height) (hi : i < width)
    (hov : i < dest_stride ∨ r + 1 = y + height) :
    ∃ t line_real line_imag,
      get_quadrant_sample_run q src_stride dest_stride x y width height
          dest_real dest_imag = some t ∧
      merge_line (offset (if r % 2 = 0 then q.r00 else q.r10) ((r / 2) * src_stride))
          (offset (if r % 2 = 0 then q.r01 else q.r11) ((r / 2) * src_stride))
          x width d0 = some line_real ∧
      merge_line (offset (if r % 2 = 0 then q.i00 else q.i10) ((r / 2) * src_stride))
          (offset (if r % 2 = 0 then q.i01 else q.i11) ((r / 2) * src_stride))
          x width d0 = some line_imag ∧
      t.dest_real ((r - y) * dest_stride + i) = line_real i ∧
      t.dest_imag ((r - y) * dest_stride + i) = line_imag i := by
  have hxw : ¬ (x % 2 = 1 ∧ width = 0) := by omega
  obtain ⟨lr, hlr, hlrc⟩ := merge_line_spec
    (offset (if r % 2 = 0 then q.r00 else q.r10) ((r / 2) * src_stride))
    (offset (if r % 2 = 0 then q.r01 else q.r11) ((r / 2) * src_stride)) x width d0 hxw
  obtain ⟨li, hli, hlic⟩ := merge_line_spec
    (offset (if r % 2 = 0 then q.i00 else q.i10) ((r / 2) * src_stride))
    (offset (if r % 2 = 0 then q.i01 else q.i11) ((r / 2) * src_stride)) x width d0 hxw
  have er : y + (r - y) = r := by omega
  refine ⟨_, lr, li, get_quadrant_sample_run_rows q src_stride dest_stride x y width height
    dest_real dest_imag hxw, hlr, hli, ?_, ?_⟩
  · simp only []
    rw [write_rows_cell _ dest_stride width (max (y % 2) height) 0 dest_real (r - y) i
      (by omega) (by omega) hi (by omega), hlrc i, if_pos hi, sample_cell, er]
    split_ifs <;> rfl
  · simp only []
    rw [write_rows_cell _ dest_stride width (max (y % 2) height) 0 dest_imag (r - y) i
      (by omega) (by omega) hi (by omega), hlic i, if_pos hi, sample_cell, er]
    split_ifs <;> rfl

theorem get_quadrant_sample_rows_rebased_witness :
    ∃ t line_real line_imag,
      get_quadrant_sample_run test_quadrants 2 2 0 2 1 2 test_dest test_dest = some t ∧
      merge_line (offset (if 3 % 2 = 0 then test_quadrants.r00 else test_quadrants.r10)
          ((3 / 2) * 2))
          (offset (if 3 % 2 = 0 then test_quadrants.r01 else test_quadrants.r11)
          ((3 / 2) * 2)) 0 1 test_dest = some line_real ∧
      merge_line (offset (if 3 % 2 = 0 then test_quadrants.i00 else test_quadrants.i10)
          ((3 / 2) * 2))
          (offset (if 3 % 2 = 0 then test_quadrants.i01 else test_quadrants.i11)
          ((3 / 2) * 2)) 0 1 test_dest = some line_imag ∧
      t.dest_real ((3 - 2) * 2 + 0) = line_real 0 ∧
      t.dest_imag ((3 - 2) * 2 + 0) = line_imag 0 :=
  get_quadrant_sample_rows_rebased test_quadrants 2 2 0 2 1 2 test_dest test_dest test_dest
    3 0 (by decide) (by decide) (by decide) (by decide)

/-- C12 (counterexample): `merge_line` with `x = 2` and `width = 2` returns with
`dest[0] = evens[1]` and `dest[1] = odds[1]`: the first even and the first odd value it
emits are element 1, not element 0, of its arguments. -/
theorem merge_line_own_offset_counterexample :
    (merge_line test_evens test_odds 2 2 test_dest).map (fun d => (d 0, d 1))
      = some (test_evens 1, test_odds 1) ∧
    test_evens 1 ≠ test_evens 0 ∧ test_odds 1 ≠ test_odds 0 := by
  decide

/-- C12 (amended): `merge_line` applies the offset `x / 2` itself. For every `x` and
`width ≥ 1` it returns; the first odd value it emits (at position `(x + 1) % 2`, when
that is inside the run) is element `x / 2` of the odds argument, and for an even `x`
the first even value it emits (at position 0) is element `x / 2` of the evens
argument. -/
theorem merge_line_first_values {α : Type} (evens odds : Nat → α) (x width : Nat)
    (dest : Nat → α) (hw : 1 ≤ width) :
    ∃ d, merge_line evens odds x width dest = some d ∧
      (x % 2 = 0 → d 0 = evens (x / 2)) ∧
      ((x + 1) % 2 < width → d ((x + 1) % 2) = odds (x / 2)) := by
  obtain ⟨d, hd, hcell⟩ := merge_line_spec evens odds x width dest (by omega)
  refine ⟨d, hd, ?_, ?_⟩
  · intro h
    have h1 : (x + 0) % 2 = 0 := by omega
    have h2 : x / 2 + 0 / 2 = x / 2 := by omega
    rw [hcell, if_pos (by omega), merge_line_cell, if_pos h1, h2]
  · intro h
    have h1 : ¬ (x + (x + 1) % 2) % 2 = 0 := by omega
    have h2 : x / 2 + (x + 1) % 2 / 2 = x / 2 := by omega
    rw [hcell, if_pos h, merge_line_cell, if_neg h1, h2]

theorem merge_line_first_values_witness :
    ∃ d, merge_line test_evens test_odds 4 3 test_dest = some d ∧
      (4 % 2 = 0 → d 0 = test_evens (4 / 2)) ∧
      ((4 + 1) % 2 < 3 → d ((4 + 1) % 2) = test_odds (4 / 2)) :=
  merge_line_first_values test_evens test_odds 4 3 test_dest (by decide)

/-- C16 (failing input): `get_quadrant_sample` with `x = 0`, `y = 0`, `width = 1`,
`height = 1` writes the one line (`dest_real[0] = r00[0]`, `dest_imag[0] = i00[0]`) but
reaches its assertion with `dest_y = 0`, not `y + height = 1`, so the assertion
`dest_y == y + height` fails. -/
theorem get_quadrant_sample_odd_end_assertion :
    (get_quadrant_sample_run test_quadrants 2 2 0 0 1 1 test_dest test_dest).map
        (fun t => (t.dest_real 0, t.dest_imag 0, t.dest_y))
      = some (test_quadrants.r00 0, test_quadrants.i00 0, 0) ∧
    (get_quadrant_sample test_quadrants 2 2 0 0 1 1 test_dest test_dest).isSome = false := by
  decide

/-- C17: the real and the imaginary plane are processed in lockstep. There is one index
map `m`, depending only on `x`, `y`, `width`, `height`, `src_stride` and `dest_stride`
(`none` when the function aborts in `merge_line`), such that for all quadrants and
destinations, at the assertion of `get_quadrant_sample` and of
`get_quadrant_sample_to_buffer`, every cell `c` of `dest_real` is a copy of the cell
`m c` of the real planes (or of the initial `dest_real`), and every cell `c` of
`dest_imag` is a copy of the same cell `m c` of the imaginary planes (or of the initial
`dest_imag`). In particular, equal quadrants and equal initial destinations give
`dest_imag = dest_real` afterwards. -/
theorem planes_in_lockstep (src_stride dest_stride x y width height : Nat) :
    ∃ m : Option (Nat → SourceCell),
      ∀ (α : Type) (q : Quadrants α) (dest_real dest_imag : Nat → α),
        (get_quadrant_sample_run q src_stride dest_stride x y width height
            dest_real dest_imag).map (fun t => t.dest_real)
          = m.map (fun f c => read_source q.r00 q.r01 q.r10 q.r11 dest_real (f c)) ∧
        (get_quadrant_sample_run q src_stride dest_stride x y width height
            dest_real dest_imag).map (fun t => t.dest_imag)
          = m.map (fun f c => read_source q.i00 q.i01 q.i10 q.i11 dest_imag (f c)) ∧
        (get_quadrant_sample_to_buffer_run q src_stride dest_stride x y width height
            dest_real dest_imag).map (fun t => t.dest_real)
          = m.map (fun f c => read_source q.r00 q.r01 q.r10 q.r11 dest_real (f c)) ∧
        (get_quadrant_sample_to_buffer_run q src_stride dest_stride x y width height
            dest_real dest_imag).map (fun t => t.dest_imag)
          = m.map (fun f c => read_source q.i00 q.i01 q.i10 q.i11 dest_imag (f c)) ∧
        (q.i00 = q.r00 → q.i01 = q.r01 → q.i10 = q.r10 → q.i11 = q.r11 →
          dest_imag = dest_real →
          (∀ p, get_quadrant_sample q src_stride dest_stride x y width height
            dest_real dest_imag = some p → p.dest_imag = p.dest_real) ∧
          (∀ p, get_quadrant_sample_to_buffer q src_stride dest_stride x y width height
            dest_real dest_imag = some p → p.dest_imag = p.dest_real)) := by
  refine ⟨if x % 2 = 1 ∧ width = 0 ∧ (y % 2 = 1 ∨ 1 ≤ height) then none
    else some (write_rows
      (sample_cell (fun k => (Sum.inr (0, k) : SourceCell)) (fun k => Sum.inr (1, k))
        (fun k => Sum.inr (2, k)) (fun k => Sum.inr (3, k)) src_stride x y)
      dest_stride width 0 (max (y % 2) height) (fun c => Sum.inl c)), ?_⟩
  intro α q dest_real dest_imag
  have hrun := get_quadrant_sample_run_planes q src_stride dest_stride x y width height
    dest_real dest_imag
  have hsim := get_quadrant_sample_to_buffer_run_sim q src_stride dest_stride x y width
    height dest_real dest_imag
  have hreal : (get_quadrant_sample_run q src_stride dest_stride x y width height
      dest_real dest_imag).map (fun t => t.dest_real)
      = (if x % 2 = 1 ∧ width = 0 ∧ (y % 2 = 1 ∨ 1 ≤ height) then none
          else some (write_rows
            (sample_cell (fun k => (Sum.inr (0, k) : SourceCell)) (fun k => Sum.inr (1, k))
              (fun k => Sum.inr (2, k)) (fun k => Sum.inr (3, k)) src_stride x y)
            dest_stride width 0 (max (y % 2) height) (fun c => Sum.inl c))).map
          (fun f c => read_source q.r00 q.r01 q.r10 q.r11 dest_real (f c)) := by
    have h := congrArg (Option.map Prod.fst) hrun
    rw [Option.map_map] at h
    rw [show (fun t : SampleState α => t.dest_real)
      = Prod.fst ∘ fun t : SampleState α => (t.dest_real, t.dest_imag) from rfl, h]
    split_ifs
    · rfl
    · simp only [Option.map_some']
      rw [read_source_rows]
  have himag : (get_quadrant_sample_run q src_stride dest_stride x y width height
      dest_real dest_imag).map (fun t => t.dest_imag)
      = (if x % 2 = 1 ∧ width = 0 ∧ (y % 2 = 1 ∨ 1 ≤ height) then none
          else some (write_rows
            (sample_cell (fun k => (Sum.inr (0, k) : SourceCell)) (fun k => Sum.inr (1, k))
              (fun k => Sum.inr (2, k)) (fun k => Sum.inr (3, k)) src_stride x y)
            dest_stride width 0 (max (y % 2) height) (fun c => Sum.inl c))).map
          (fun f c => read_source q.i00 q.i01 q.i10 q.i11 dest_imag (f c)) := by
    have h := congrArg (Option.map Prod.snd) hrun
    rw [Option.map_map] at h
    rw [show (fun t : SampleState α => t.dest_imag)
      = Prod.snd ∘ fun t : SampleState α => (t.dest_real, t.dest_imag) from rfl, h]
    split_ifs
    · rfl
    · simp only [Option.map_some']
      rw [read_source_rows]
  have hbr : (get_quadrant_sample_to_buffer_run q src_stride dest_stride x y width height
      dest_real dest_imag).map (fun t => t.dest_real)
      = (get_quadrant_sample_run q src_stride dest_stride x y width height
          dest_real dest_imag).map (fun t => t.dest_real) := by
    rw [← hsim, Option.map_map]
    rfl
  have hbi : (get_quadrant_sample_to_buffer_run q src_stride dest_stride x y width height
      dest_real dest_imag).map (fun t => t.dest_imag)
      = (get_quadrant_sample_run q src_stride dest_stride x y width height
          dest_real dest_imag).map (fun t => t.dest_imag) := by
    rw [← hsim, Option.map_map]
    rfl
  refine ⟨hreal, himag, hbr.trans hreal, hbi.trans himag, ?_⟩
  intro h00 h01 h10 h11 hd
  have heq : (get_quadrant_sample_run q src_stride dest_stride x y width height
      dest_real dest_imag).map (fun t => t.dest_imag)
      = (get_quadrant_sample_run q src_stride dest_stride x y width height
          dest_real dest_imag).map (fun t => t.dest_real) := by
    rw [himag, hreal, h00, h01, h10, h11, hd]
  have hcall : ∀ p, get_quadrant_sample q src_stride dest_stride x y width height
      dest_real dest_imag = some p → p.dest_imag = p.dest_real := by
    intro p hp
    simp only [get_quadrant_sample] at hp
    cases ht : get_quadrant_sample_run q src_stride dest_stride x y width height
        dest_real dest_imag with
    | none => rw [ht] at hp; exact absurd hp (by simp)
    | some t =>
      rw [ht] at hp heq
      simp only [Option.map_some', Option.some.injEq] at heq
      simp only [Option.some_bind] at hp
      split_ifs at hp
      simp only [Option.some.injEq] at hp
      subst hp
      exact heq
  refine ⟨hcall, ?_⟩
  intro p hp
  rw [get_quadrant_sample_to_buffer_eq] at hp
  exact hcall p hp

/-- C21: for every even `x` and every `width`, `merge_line` returns: its assertion
`dest_x == x + width` holds, for every `i < width` the cell `dest[i]` is
`evens[(x + i) / 2]` when `i` is even and `odds[(x + i) / 2]` when `i` is odd, and
every cell of `dest` from `width` on is unchanged. -/
theorem merge_line_even_x {α : Type} (evens odds : Nat → α) (x width : Nat)
    (dest : Nat → α) (hx : x % 2 = 0) :
    ∃ s, merge_line_run evens odds x width dest = some s ∧
      s.dest_x = x + width ∧
      merge_line evens odds x width dest = some s.dest ∧
      (∀ i, i < width →
        (i % 2 = 0 → s.dest i = evens ((x + i) / 2)) ∧
        (i % 2 = 1 → s.dest i = odds ((x + i) / 2))) ∧
      (∀ i, width ≤ i → s.dest i = dest i) := by
  obtain ⟨s, hs, hdx, hcell⟩ := merge_line_run_spec evens odds x width dest
  have hbad : ¬ (x % 2 = 1 ∧ width = 0) := by omega
  rw [if_neg hbad] at hdx
  refine ⟨s, hs, hdx, by simp [merge_line, hs, hdx], ?_, ?_⟩
  · intro i hi
    have hidx : x / 2 + i / 2 = (x + i) / 2 := by omega
    rw [hcell i, if_pos (Or.inl hi), merge_line_cell, hidx]
    constructor
    · intro h
      rw [if_pos (by omega)]
    · intro h
      rw [if_neg (by omega)]
  · intro i hi
    rw [hcell i, if_neg (by omega)]

theorem merge_line_even_x_witness :
    ∃ s, merge_line_run test_evens test_odds 4 3 test_dest = some s ∧
      s.dest_x = 4 + 3 ∧
      merge_line test_evens test_odds 4 3 test_dest = some s.dest ∧
      (∀ i, i < 3 →
        (i % 2 = 0 → s.dest i = test_evens ((4 + i) / 2)) ∧
        (i % 2 = 1 → s.dest i = test_odds ((4 + i) / 2))) ∧
      (∀ i, 3 ≤ i → s.dest i = test_dest i) :=
  merge_line_even_x test_evens test_odds 4 3 test_dest (by decide)

/-- C22: for every `width`, `height`, `dstride` and `sstride` with `width ≤ dstride`, and
separate source and destination buffers, `memcpy2D` returns; afterwards every byte
`dst[i * dstride + j]` with `i < height` and `j < width` equals `src[i * sstride + j]`,
and every byte of `dst` whose index is not of the form `i * dstride + j` with
`i < height` and `j < width` is unchanged. -/
theorem memcpy2D_post_and_frame {α : Type} (dst : Nat → α) (dstride : Nat) (src : Nat → α)
    (sstride width height : Nat) (hw : width ≤ dstride) :
    ∃ d, memcpy2D dst dstride src sstride width height = some d ∧
      (∀ i j, i < height → j < width → d (i * dstride + j) = src (i * sstride + j)) ∧
      (∀ c, (¬ ∃ i j, i < height ∧ j < width ∧ c = i * dstride + j) → d c = dst c) := by
  refine ⟨_, memcpy2D_eq_write_rows dst dstride src sstride width height, ?_, ?_⟩
  · intro i j hi hj
    exact write_rows_cell (fun r j => src (r * sstride + j)) dstride width height 0 dst i j
      (by omega) (by omega) hj (Or.inl (by omega))
  · intro c hc
    exact write_rows_frame (fun r j => src (r * sstride + j)) dstride width height 0 dst c
      (fun j i _ h2 h3 he => hc ⟨j, i, by omega, h3, he⟩)

theorem memcpy2D_post_and_frame_witness :
    ∃ d, memcpy2D test_dest 4 test_src 3 2 2 = some d ∧
      (∀ i j, i < 2 → j < 2 → d (i * 4 + j) = test_src (i * 3 + j)) ∧
      (∀ c, (¬ ∃ i j, i < 2 ∧ j < 2 ∧ c = i * 4 + j) → d c = test_dest c) :=
  memcpy2D_post_and_frame test_dest 4 test_src 3 2 2 (by decide)

end TrotterSuzuki
